import Mathlib

/-!
Verification of the repository bootstrapper tool (src/_tools/generate_repo.py).

The Python program is shallowly embedded: the filesystem is an explicit
state (an association list of paths to file data plus a directory set),
each method of the Generator class becomes a Lean function over that
state, and every observable side effect (directory creation, file write,
rename, move, copy, console diagnostic) is recorded in an event log so
that temporal ordering claims can be stated.  External library behaviour
(XML parsing by minidom, str.format template rendering, the md5 core) is
abstracted into function parameters of the model; everything the Python
file itself does is translated directly.
-/

namespace RepoGen

/-! ## String helpers mirroring Python primitives -/

/-- Python whitespace characters, as used by str.strip. -/
def isPySpace (c : Char) : Bool :=
  c = ' ' || c = '\t' || c = '\n' || c = '\r' || c = '\x0b' || c = '\x0c'

/-- Drop trailing Python-whitespace from a character list. -/
def dropTrailWS (l : List Char) : List Char :=
  ((l.reverse).dropWhile isPySpace).reverse

/-- Python str.strip on a string: drop whitespace from both ends. -/
def pyStrip (s : String) : String :=
  String.mk ((dropTrailWS s.data).dropWhile isPySpace)

/-- Decide whether the first character list occurs at the start of the second. -/
def listLeads : List Char → List Char → Bool
  | [], _ => true
  | _ :: _, [] => false
  | a :: as, b :: bs => a = b && listLeads as bs

/-- Decide whether the string p occurs at the start of the string s. -/
def strLeads (p s : String) : Bool :=
  listLeads p.data s.data

/-- Decide whether the first character list occurs contiguously inside the second. -/
def containsSub (needle : List Char) : List Char → Bool
  | [] => listLeads needle []
  | c :: rest => listLeads needle (c :: rest) || containsSub needle rest

/-- Index of the last '.' in a character list, if any (position from the front). -/
def lastDotIdx (l : List Char) : Option Nat :=
  match l.reverse.findIdx? (· = '.') with
  | none => none
  | some k => some (l.length - 1 - k)

/-- CPython os.path.splitext extension rule for a bare filename: the extension
starts at the last dot, provided some earlier character of the name is not a
dot; otherwise the extension is empty. -/
def splitextExt (s : String) : String :=
  match lastDotIdx s.data with
  | none => ""
  | some i =>
      if (s.data.take i).any (fun c => ¬ (c = '.')) then
        String.mk (s.data.drop i)
      else ""

/-- Characters of a path after the last '/', as os.walk yields bare filenames. -/
def baseName (p : String) : String :=
  match (p.data.reverse.splitOn '/').head? with
  | some r => String.mk r.reverse
  | none => p

/-- Lowercased extension of a path's basename: models
os.path.splitext(file)[-1].lower() applied to the walked filename. -/
def extLower (p : String) : String :=
  String.mk ((splitextExt (baseName p)).data.map Char.toLower)

/-- Python str.split on a separator character: splits at every occurrence,
keeping empty pieces, and yields one empty piece for the empty string. -/
def pySplit (s : String) (sep : Char) : List String :=
  (s.data.splitOn sep).map String.mk

/-- Lowercase hex character for a nibble value; Nat.digitChar prints the
values ten through fifteen as the lowercase letters a through f. -/
def hexChar (n : Nat) : Char :=
  Nat.digitChar n

/-- Lowercase hex encoding of a byte list: models hashlib's hexdigest. -/
def hexDigest (bs : List Nat) : String :=
  String.mk ((bs.map (fun b => [hexChar (b / 16 % 16), hexChar (b % 16)])).flatten)

/-- The sixteen lowercase hex characters. -/
def hexAlphabet : List Char :=
  "0123456789abcdef".data

/-! ## Timestamps: datetime.now().strftime of the %Y%m%d%H%M%S pattern -/

/-- Wall-clock instant with the six fields the archiver's strftime call prints. -/
structure DateTime where
  year : Nat
  month : Nat
  day : Nat
  hour : Nat
  minute : Nat
  second : Nat
deriving DecidableEq, Repr

/-- Two zero-padded decimal digit characters of a value below 100. -/
def pad2 (n : Nat) : List Char :=
  [Nat.digitChar (n / 10 % 10), Nat.digitChar (n % 10)]

/-- Four zero-padded decimal digit characters of a value below 10000. -/
def pad4 (n : Nat) : List Char :=
  pad2 (n / 100) ++ pad2 (n % 100)

/-- Characters of strftime of the numeric year-month-day-hour-minute-second
pattern used when an existing archive is renamed. -/
def strftimeChars (t : DateTime) : List Char :=
  pad4 t.year ++ (pad2 t.month ++ (pad2 t.day ++
    (pad2 t.hour ++ (pad2 t.minute ++ pad2 t.second))))

/-- Timestamp suffix string appended to a superseded archive's name. -/
def strftimeYmdHMS (t : DateTime) : String :=
  String.mk (strftimeChars t)

/-- Chronological order on timestamps: lexicographic on the six fields. -/
def dtLt (a b : DateTime) : Prop :=
  a.year < b.year ∨ (a.year = b.year ∧ (a.month < b.month ∨ (a.month = b.month ∧
    (a.day < b.day ∨ (a.day = b.day ∧ (a.hour < b.hour ∨ (a.hour = b.hour ∧
      (a.minute < b.minute ∨ (a.minute = b.minute ∧ a.second < b.second)))))))))

/-- Field bounds under which the strftime rendering is six fixed-width blocks. -/
def dtValid (t : DateTime) : Prop :=
  t.year < 10000 ∧ t.month < 100 ∧ t.day < 100 ∧
    t.hour < 100 ∧ t.minute < 100 ∧ t.second < 100

instance (t : DateTime) : Decidable (dtValid t) := by
  unfold dtValid; infer_instance

instance (a b : DateTime) : Decidable (dtLt a b) := by
  unfold dtLt; infer_instance

/-! ## Filesystem state, events, and the effect monad -/

/-- Data stored at a path: a text file, or a zip archive holding named
entries (entry name paired with the stored bytes). -/
inductive FData where
  | text (s : String)
  | zipA (entries : List (String × String))
deriving DecidableEq, Repr

/-- Filesystem state seen by one run.  The listing is what os.listdir of the
working directory returns; files maps full paths to contents; dirs is the set
of directory paths; the last three lists model paths where opening for read,
opening for write, or the write call itself raises an OSError. -/
structure FS where
  listing : List String
  files : List (String × FData)
  dirs : List String
  unreadable : List String
  unwritableOpen : List String
  writeFails : List String
deriving DecidableEq, Repr

/-- Observable side effects of the run, in order of occurrence. -/
inductive Event where
  | mkdirs (p : String)
  | openWrite (p : String)
  | writeData (p : String)
  | closeFile (p : String)
  | createZip (p : String)
  | rename (src dst : String)
  | move (src dst : String)
  | copy (src dst : String)
  | logMsg (m : String)
deriving DecidableEq, Repr

/-- Python exceptions the model distinguishes. -/
inductive Err where
  | noOption (section_ key : String)
  | ioError (p : String)
  | parseError
  | nameError
deriving DecidableEq, Repr

/-- Outcome of one modelled statement: normal value or raised exception. -/
inductive Res (α : Type) where
  | ok (a : α)
  | exc (e : Err)
deriving DecidableEq, Repr

/-- Run state: the filesystem plus the event log accumulated so far. -/
structure St where
  fs : FS
  log : List Event
deriving DecidableEq, Repr

/-- State-and-exception monad the Python methods are translated into.  The
state is kept even when an exception is raised, because Python side effects
performed before a raise persist. -/
def Gen (α : Type) : Type := St → Res α × St

instance : Monad Gen where
  pure a := fun st => (Res.ok a, st)
  bind x f := fun st =>
    match x st with
    | (Res.ok a, st') => f a st'
    | (Res.exc e, st') => (Res.exc e, st')

/-- Raise an exception. -/
def throwG {α : Type} (e : Err) : Gen α := fun st => (Res.exc e, st)

/-- Bare try/except catching every exception, as the Python source uses. -/
def tryAll {α : Type} (x : Gen α) (h : Err → Gen α) : Gen α := fun st =>
  match x st with
  | (Res.ok a, st') => (Res.ok a, st')
  | (Res.exc e, st') => h e st'

/-- Append one event to the log. -/
def emit (e : Event) : Gen Unit := fun st =>
  (Res.ok (), { st with log := st.log ++ [e] })

/-- Print a console diagnostic. -/
def logLine (m : String) : Gen Unit := emit (Event.logMsg m)

/-- Content stored at a path, if any. -/
def lookupFile (fs : FS) (p : String) : Option FData :=
  (fs.files.find? (fun e => e.1 = p)).map (fun e => e.2)

/-- Store content at a path, replacing any previous content. -/
def setFile (fs : FS) (p : String) (d : FData) : FS :=
  { fs with files := (p, d) :: fs.files.filter (fun e => ¬ (e.1 = p)) }

/-- Remove the file at a path. -/
def removeFile (fs : FS) (p : String) : FS :=
  { fs with files := fs.files.filter (fun e => ¬ (e.1 = p)) }

/-- Model of os.path.isfile. -/
def isfileF (fs : FS) (p : String) : Bool := (lookupFile fs p).isSome

/-- Model of os.path.isdir. -/
def isdirF (fs : FS) (p : String) : Bool := fs.dirs.contains p

/-- Model of os.path.exists. -/
def existsF (fs : FS) (p : String) : Bool := isfileF fs p || isdirF fs p

/-- Monadic os.path.isfile. -/
def isfileG (p : String) : Gen Bool := fun st => (Res.ok (isfileF st.fs p), st)

/-- Monadic os.path.isdir. -/
def isdirG (p : String) : Gen Bool := fun st => (Res.ok (isdirF st.fs p), st)

/-- Monadic os.path.exists. -/
def existsG (p : String) : Gen Bool := fun st => (Res.ok (existsF st.fs p), st)

/-- Monadic os.listdir of the working directory. -/
def listdirG : Gen (List String) := fun st => (Res.ok st.fs.listing, st)

/-- Model of os.makedirs: records the new directory and the side effect. -/
def makedirsG (p : String) : Gen Unit := fun st =>
  (Res.ok (), { fs := { st.fs with dirs := p :: st.fs.dirs },
                log := st.log ++ [Event.mkdirs p] })

/-- Open a file for reading and return its text; raises on a missing,
unreadable, or non-text file. -/
def readText (p : String) : Gen String := fun st =>
  if st.fs.unreadable.contains p then (Res.exc (Err.ioError p), st)
  else
    match lookupFile st.fs p with
    | some (FData.text s) => (Res.ok s, st)
    | _ => (Res.exc (Err.ioError p), st)

/-- Model of shutil.copy: raises when the source is missing or unreadable. -/
def copyG (src dst : String) : Gen Unit := fun st =>
  if st.fs.unreadable.contains src then (Res.exc (Err.ioError src), st)
  else
    match lookupFile st.fs src with
    | none => (Res.exc (Err.ioError src), st)
    | some d =>
        (Res.ok (), { fs := setFile st.fs dst d,
                      log := st.log ++ [Event.copy src dst] })

/-- Model of os.rename: re-keys the source file to the destination. -/
def renameG (src dst : String) : Gen Unit := fun st =>
  match lookupFile st.fs src with
  | none => (Res.exc (Err.ioError src), st)
  | some d =>
      (Res.ok (), { fs := setFile (removeFile st.fs src) dst d,
                    log := st.log ++ [Event.rename src dst] })

/-- Model of shutil.move: re-keys the source file to the destination. -/
def moveG (src dst : String) : Gen Unit := fun st =>
  match lookupFile st.fs src with
  | none => (Res.exc (Err.ioError src), st)
  | some d =>
      (Res.ok (), { fs := setFile (removeFile st.fs src) dst d,
                    log := st.log ++ [Event.move src dst] })

/-! ## Abstracted library behaviour and configuration -/

/-- One addon element of a parsed manifest: its version and id attributes,
none when the attribute is absent (minidom's getAttribute then returns ""). -/
structure AddonElem where
  version : Option String
  id : Option String
deriving DecidableEq, Repr

/-- Result of minidom.parse on a manifest's text: a raised parse exception,
or the document's list of elements with tag name addon, in document order. -/
inductive ParseResult where
  | fail
  | doc (elems : List AddonElem)
deriving DecidableEq, Repr

/-- Read-only key/value configuration source, as configparser exposes it:
a section name and option name resolve to a value when present. -/
structure Config where
  get : String → String → Option String

/-- External behaviour the run depends on: the XML parser, str.format
template rendering, the md5 digest core, the wall clock, and the absolute
tools directory path computed from the script's own location. -/
structure Env where
  parse : String → ParseResult
  fmt : String → List (String × String) → String
  md5 : String → List Nat
  now : DateTime
  tools_path : String

/-- Model of config.get: returns the configured value or raises, as
configparser raises NoOptionError / NoSectionError. -/
def configGet (cfg : Config) (s k : String) : Gen String := fun st =>
  match cfg.get s k with
  | some v => (Res.ok v, st)
  | none => (Res.exc (Err.noOption s k), st)

/-! ## Console message texts from the source -/

/-- Diagnostic printed with the traceback by the bare except handlers. -/
def kodiExcMsg : String := "Kodi Repo Generator Exception: \n"

/-- Diagnostic of the save-file handler, carrying the destination path. -/
def saveErrMsg (file : String) : String :=
  "**** An error occurred saving " ++ file ++ " file!\n"

/-- Diagnostic of the md5-stage handler. -/
def md5ErrMsg : String := "**** An error occurred creating addons.xml.md5 file!\n"

/-- Diagnostic of the aggregator when a manifest cannot be read. -/
def excludingMsg (path addon : String) : String :=
  "Excluding " ++ path ++ " for " ++ addon

/-! ## Translation of the Generator methods -/

/-- Translation of Generator save-file helper: open the destination for
writing (truncating), write the data, close on every path, catch and log
any failure together with the destination path, and never re-raise. -/
def saveFile (data : String) (file : String) : Gen Unit := fun st =>
  if st.fs.unwritableOpen.contains file then
    (Res.ok (), { st with
      log := st.log ++ [Event.logMsg (saveErrMsg file), Event.logMsg kodiExcMsg] })
  else if st.fs.writeFails.contains file then
    (Res.ok (), { fs := setFile st.fs file (FData.text ""),
                  log := st.log ++ [Event.openWrite file, Event.closeFile file,
                    Event.logMsg (saveErrMsg file), Event.logMsg kodiExcMsg] })
  else
    (Res.ok (), { fs := setFile st.fs file (FData.text data),
                  log := st.log ++ [Event.openWrite file, Event.writeData file,
                    Event.closeFile file] })

/-- Conditional directory creation: os.makedirs guarded by os.path.exists,
the pattern the source uses both at pre-run and around output directories. -/
def ensureDir (p : String) : Gen Unit := do
  if !(← existsG p) then makedirsG p

/-- Conditional backup rename: when a file already exists at the final
archive path, rename it by appending the supplied timestamp suffix. -/
def backupExisting (dst ts : String) : Gen Unit := do
  if (← isfileG dst) then renameG dst (dst ++ "." ++ ts)

/-- Translation of the pre-run step: create the output path if absent. -/
def preRun (output_path : String) : Gen Unit :=
  ensureDir output_path

/-- Translation of the repository-manifest bootstrap step: read the seven
identity options, no-op when the repository's own manifest already exists,
otherwise render the template and save the manifest, creating the addon
directory when needed. -/
def generateRepoFiles (env : Env) (cfg : Config) (output_path : String) :
    Gen Unit := do
  let addonid ← configGet cfg "addon" "id"
  let name ← configGet cfg "addon" "name"
  let version ← configGet cfg "addon" "version"
  let author ← configGet cfg "addon" "author"
  let summary ← configGet cfg "addon" "summary"
  let description ← configGet cfg "addon" "description"
  let url ← configGet cfg "locations" "url"
  if (← isfileG (addonid ++ "/" ++ "addon.xml")) then
    pure ()
  else do
    logLine "Create repository addon"
    let template_xml ← readText (env.tools_path ++ "/" ++ "template.xml")
    let repo_xml := env.fmt template_xml
      [("addonid", addonid), ("name", name), ("version", version),
       ("author", author), ("summary", summary), ("description", description),
       ("url", url), ("output_path", output_path)]
    ensureDir addonid
    saveFile repo_xml (addonid ++ "/" ++ "addon.xml")

/-- Fixed first bytes of the aggregate document. -/
def xmlHeader : String := "<?xml version=\"1.0\" encoding=\"UTF-8\"?>\n<addons>\n"

/-- Loop body of the aggregator: for each listed entry holding a manifest
file, read it and append its content plus a blank separator to the buffer;
a failed read is logged and leaves the buffer unchanged. -/
def addonsLoop : List String → String → Gen String
  | [], acc => pure acc
  | a :: rest, acc => do
      let p := a ++ "/" ++ "addon.xml"
      if (← isfileG p) then do
        let acc' ← tryAll
          (do
            let c ← readText p
            pure (acc ++ c ++ "\n\n"))
          (fun _ => do
            logLine (excludingMsg p a)
            logLine "Exception Details:"
            logLine kodiExcMsg
            pure acc)
        addonsLoop rest acc'
      else
        addonsLoop rest acc

/-- Translation of the aggregator stage: build the buffer over the listing,
strip it, close the root element, and save it under the fixed name. -/
def generateAddonsFile (output_path : String) : Gen Unit := do
  let addons ← listdirG
  let addons_xml ← addonsLoop addons xmlHeader
  saveFile (pyStrip addons_xml ++ "\n</addons>\n") (output_path ++ "addons.xml")

/-- Translation of the integrity-stamp stage: read the persisted aggregate
bytes, hex-encode their md5 digest, and save it to the fixed sibling name;
any failure is caught and logged. -/
def generateMd5File (env : Env) (output_path : String) : Gen Unit :=
  tryAll
    (do
      let c ← readText (output_path ++ "addons.xml")
      let result := hexDigest (env.md5 c)
      saveFile result (output_path ++ "addons.xml.md5"))
    (fun _ => do
      logLine md5ErrMsg
      logLine kodiExcMsg)

/-- Text stored for a walked file when it is written into a zip.  Bytes of a
nested archive are not tracked further. -/
def textOf : FData → String
  | FData.text s => s
  | FData.zipA _ => ""

/-- Files the zip loop stores: every file whose path lies under the walked
directory and whose lowercased basename extension is not excluded, keyed by
the same working-directory-relative path that zip.write records. -/
def zipWalkEntries (fs : FS) (path : String) (excludes : List String) :
    List (String × String) :=
  fs.files.filterMap (fun e =>
    if listLeads (path ++ "/").data e.1.data ∧ ¬ excludes.contains (extLower e.1) then
      some (e.1, textOf e.2)
    else none)

/-- Model of the with-ZipFile block: create the archive in the working
directory holding exactly the filtered walked files. -/
def createZipG (filename path : String) (excludes : List String) : Gen Unit :=
  fun st =>
    (Res.ok (), { fs := setFile st.fs filename
                    (FData.zipA (zipWalkEntries st.fs path excludes)),
                  log := st.log ++ [Event.createZip filename] })

/-- Move of the built archive into the per-id output subdirectory followed
by the three asset copies: the manifest copy from the directory named by
the declared id (unguarded), then the icon and fan-art copies, each in its
own try/except that logs the missing asset. -/
def zipMoveAndCopy (output_path addonid filename : String) : Gen Unit := do
  moveG filename (output_path ++ addonid ++ "/" ++ filename)
  copyG (addonid ++ "/addon.xml") (output_path ++ addonid ++ "/" ++ "addon.xml")
  tryAll (copyG (addonid ++ "/icon.png") (output_path ++ addonid ++ "/" ++ "icon.png"))
    (fun _ => logLine ("**** Icon file missing for " ++ addonid))
  tryAll (copyG (addonid ++ "/fanart.jpg") (output_path ++ addonid ++ "/" ++ "fanart.jpg"))
    (fun _ => logLine ("**** Fanart file missing for " ++ addonid))

/-- Body of the per-package archive step's try block: build the filtered
zip in the working directory, ensure the per-id output subdirectory,
back up any archive already bearing the final name with the timestamp
suffix, then move the new archive in and copy the assets. -/
def zipInner (env : Env) (output_path : String) (excludes : List String)
    (path addonid filename : String) : Gen Unit := do
  createZipG filename path excludes
  ensureDir (output_path ++ addonid)
  backupExisting (output_path ++ addonid ++ "/" ++ filename)
    (strftimeYmdHMS env.now)
  zipMoveAndCopy output_path addonid filename

/-- Translation of the per-package archive step: print the banner, then run
the archive build and placement under a bare except that logs failures. -/
def generateZipFile (env : Env) (output_path : String) (excludes : List String)
    (path version addonid : String) : Gen Unit := do
  logLine ("Generate zip file for " ++ addonid ++ " " ++ version)
  let filename := path ++ "-" ++ version ++ ".zip"
  tryAll (zipInner env output_path excludes path addonid filename)
    (fun _ => logLine kodiExcMsg)

/-- Loop of the archiver stage.  The accumulator carries the version and id
local variables of the Python loop: they persist across iterations, so a
parsed manifest without any addon element silently reuses the previous
package's values, and raises a NameError when none were ever assigned.
minidom's getAttribute yields an empty string for an absent attribute. -/
def processAddons (env : Env) (output_path : String) (excludes : List String) :
    Option (String × String) → List String → Gen Unit
  | _, [] => pure ()
  | acc, a :: rest => do
      let p := a ++ "/" ++ "addon.xml"
      if (← isfileG p) then do
        let acc' ← tryAll
          (do
            if !(← isdirG a) || [".git", output_path, env.tools_path].contains a then
              pure acc
            else do
              let content ← readText p
              match env.parse content with
              | ParseResult.fail => throwG Err.parseError
              | ParseResult.doc elems =>
                  match elems.getLast? with
                  | some el => do
                      let v := el.version.getD ""
                      let i := el.id.getD ""
                      generateZipFile env output_path excludes a v i
                      pure (some (v, i))
                  | none =>
                      match acc with
                      | some (v, i) => do
                          generateZipFile env output_path excludes a v i
                          pure acc
                      | none => throwG Err.nameError)
          (fun _ => do
            logLine kodiExcMsg
            pure acc)
        processAddons env output_path excludes acc' rest
      else
        processAddons env output_path excludes acc rest

/-- Translation of the archiver stage. -/
def generateZipFiles (env : Env) (output_path : String)
    (excludes : List String) : Gen Unit := do
  let addons ← listdirG
  processAddons env output_path excludes none addons

/-- Translation of the Generator constructor: read the two startup options,
derive the prefixed output path and the exclusion list, then run the stages
in source order — pre-run, bootstrap, aggregator, md5 stamp, archiver —
and print the two closing lines. -/
def runInit (env : Env) (cfg : Config) : Gen Unit := do
  let op ← configGet cfg "locations" "output_path"
  let output_path := "_" ++ op
  let ex ← configGet cfg "addon" "excludes"
  let excludes := pySplit ex ','
  preRun output_path
  generateRepoFiles env cfg output_path
  generateAddonsFile output_path
  generateMd5File env output_path
  generateZipFiles env output_path excludes
  logLine "Finished updating addons xml, md5 files and zipping addons"
  logLine "Always double-check your MD5 Hash using a site like http://onlinemd5.com/ if the repo is not showing files or downloading properly."

/-! ## Concrete fixtures used by witnesses and counterexamples -/

/-- Concrete external environment: the parser recognises two manifest texts,
one declaring version 1.0 and id A, one whose addon element carries neither
attribute; everything else fails to parse. -/
def envC : Env :=
  { parse := fun s =>
      if s = "MA" then ParseResult.doc [⟨some "1.0", some "A"⟩]
      else if s = "MB" then ParseResult.doc [⟨some "1.0", some "B"⟩]
      else if s = "M0" then ParseResult.doc [⟨none, none⟩]
      else ParseResult.fail,
    fmt := fun t _ => t,
    md5 := fun _ => [0, 255],
    now := ⟨2024, 5, 6, 7, 8, 9⟩,
    tools_path := "/repo/_tools" }

/-- Concrete complete configuration. -/
def cfgC : Config :=
  { get := fun s k =>
      if s = "locations" then
        (if k = "output_path" then some "zip/"
         else if k = "url" then some "http://x/" else none)
      else if s = "addon" then
        (if k = "excludes" then some ".pyc"
         else if k = "id" then some "repoaddon"
         else if k = "name" then some "RepoName"
         else if k = "version" then some "1.0.0"
         else if k = "author" then some "au"
         else if k = "summary" then some "su"
         else if k = "description" then some "de"
         else none)
      else none }

/-- Concrete configuration missing the addon id option only. -/
def cfgNoId : Config :=
  { get := fun s k =>
      if s = "addon" ∧ k = "id" then none else cfgC.get s k }

/-- Concrete working tree with one well-formed package A and the
repository's own manifest already bootstrapped. -/
def fsC : FS :=
  { listing := ["A", "repoaddon"],
    files := [("A/addon.xml", FData.text "MA"),
              ("A/lib.py", FData.text "pycode"),
              ("A/lib.pyc", FData.text "bytecode"),
              ("A/icon.png", FData.text "iconA"),
              ("A/fanart.jpg", FData.text "fanA"),
              ("repoaddon/addon.xml", FData.text "MR")],
    dirs := ["A", "repoaddon"],
    unreadable := [], unwritableOpen := [], writeFails := [] }

/-- Concrete working tree whose only package has a manifest that parses but
declares neither an id nor a version attribute. -/
def fsM : FS :=
  { listing := ["apkg"],
    files := [("apkg/addon.xml", FData.text "M0"),
              ("apkg/f.txt", FData.text "x"),
              ("repoaddon/addon.xml", FData.text "MR")],
    dirs := ["apkg", "repoaddon"],
    unreadable := [], unwritableOpen := [], writeFails := [] }

/-- Concrete working tree whose tooling directory contains a manifest.
The environment's absolute tools path can never equal the bare listing
name, so the archiver's exclusion membership test does not fire. -/
def fsT : FS :=
  { listing := ["_tools"],
    files := [("_tools/addon.xml", FData.text "MA"),
              ("A/addon.xml", FData.text "MA"),
              ("A/icon.png", FData.text "iconA"),
              ("A/fanart.jpg", FData.text "fanA")],
    dirs := ["_tools", "A"],
    unreadable := [], unwritableOpen := [], writeFails := [] }

/-- Events that touch the filesystem, as opposed to console prints. -/
def ioEvent : Event → Bool
  | Event.logMsg _ => false
  | _ => true

/-- Manifest texts the aggregator reads successfully over a listing, in
listing order: entries holding a manifest file whose open and read succeed
and yield text. -/
def collectManifests (fs : FS) : List String → List String :=
  List.filterMap (fun a =>
    if isfileF fs (a ++ "/" ++ "addon.xml") ∧
        ¬ (fs.unreadable.contains (a ++ "/" ++ "addon.xml")) then
      match lookupFile fs (a ++ "/" ++ "addon.xml") with
      | some (FData.text c) => some c
      | _ => none
    else none)

/-- Manifest texts of the whole working tree the aggregator will read. -/
def readableManifests (fs : FS) : List String :=
  collectManifests fs fs.listing

/-- Whether opening and reading the file at p as text succeeds. -/
def readsOk (fs : FS) (p : String) : Bool :=
  !(fs.unreadable.contains p) &&
    (match lookupFile fs p with
     | some (FData.text _) => true
     | _ => false)

/-- Concatenation with a blank-line separator after every piece, the form
the aggregator's loop accumulates. -/
def blobCat : List String → String
  | [] => ""
  | c :: rest => c ++ "\n\n" ++ blobCat rest

/-- Pieces joined with a single blank-line separator between them. -/
def interBlank : List String → String
  | [] => ""
  | [c] => c
  | c :: rest => c ++ "\n\n" ++ interBlank rest

/-- Concrete working tree holding one package directory whose manifest
declares an id different from the directory name, with no directory of the
declared name present. -/
def fsX : FS :=
  { listing := ["pkg"],
    files := [("pkg/addon.xml", FData.text "MB")],
    dirs := ["pkg"],
    unreadable := [], unwritableOpen := [], writeFails := [] }

/-- Concrete working tree whose only manifest ends in blank lines, which
the aggregate's final strip removes. -/
def fsW : FS :=
  { listing := ["W"],
    files := [("W/addon.xml", FData.text "x\n\n\n")],
    dirs := ["W"],
    unreadable := [], unwritableOpen := [], writeFails := [] }

/-- Event is not an archive creation. -/
def notCreate (e : Event) : Prop := ∀ p, ¬ (e = Event.createZip p)

/-- Event is not an aggregate-style buffer write. -/
def notWrite (e : Event) : Prop := ∀ p, ¬ (e = Event.writeData p)

/-- The program emits only events satisfying P, appended to the log. -/
def EmitsOnly {α : Type} (x : Gen α) (P : Event → Prop) : Prop :=
  ∀ st, ∃ Δ, (x st).2.log = st.log ++ Δ ∧ ∀ e ∈ Δ, P e

/-- Log of a run splits into a creation-free part then a write-free part. -/
def SplitCW {α : Type} (y : Gen α) : Prop :=
  ∀ st, ∃ A B, (y st).2.log = st.log ++ A ++ B ∧
    (∀ e ∈ A, notCreate e) ∧ (∀ e ∈ B, notWrite e)

/-- The program leaves the file stored at q untouched. -/
def KeyPres {α : Type} (x : Gen α) (q : String) : Prop :=
  ∀ st, lookupFile ((x st).2).fs q = lookupFile st.fs q

/-- Log of a run splits into a part satisfying P then a part satisfying Q. -/
def SplitLog {α : Type} (y : Gen α) (P Q : Event → Prop) : Prop :=
  ∀ st, ∃ A B, (y st).2.log = st.log ++ A ++ B ∧
    (∀ e ∈ A, P e) ∧ (∀ e ∈ B, Q e)

/-- Event is not an asset copy. -/
def notCopy (e : Event) : Prop := ∀ s d, ¬ (e = Event.copy s d)

/-- Event is not an archive move. -/
def notMove (e : Event) : Prop := ∀ s d, ¬ (e = Event.move s d)

/-- Copy events read only from the three id-qualified asset paths. -/
def copySrcOf (addonid : String) (e : Event) : Prop :=
  ∀ s d, e = Event.copy s d →
    s = addonid ++ "/addon.xml" ∨ s = addonid ++ "/icon.png" ∨
    s = addonid ++ "/fanart.jpg"

-- THEOREMS BELOW ------------------------------------------------------------

/-! ## Unfolding lemmas for the effect monad -/

@[simp] theorem pure_apply {α : Type} (a : α) (st : St) :
    (pure a : Gen α) st = (Res.ok a, st) := rfl

@[simp] theorem bind_apply {α β : Type} (x : Gen α) (f : α → Gen β) (st : St) :
    (x >>= f) st =
      match x st with
      | (Res.ok a, st') => f a st'
      | (Res.exc e, st') => (Res.exc e, st') := rfl

@[simp] theorem map_apply {α β : Type} (f : α → β) (x : Gen α) (st : St) :
    (f <$> x) st =
      match x st with
      | (Res.ok a, st') => (Res.ok (f a), st')
      | (Res.exc e, st') => (Res.exc e, st') := rfl

@[simp] theorem throwG_apply {α : Type} (e : Err) (st : St) :
    (throwG e : Gen α) st = (Res.exc e, st) := rfl

@[simp] theorem tryAll_apply {α : Type} (x : Gen α) (h : Err → Gen α) (st : St) :
    tryAll x h st =
      match x st with
      | (Res.ok a, st') => (Res.ok a, st')
      | (Res.exc e, st') => h e st' := rfl

@[simp] theorem emit_apply (e : Event) (st : St) :
    emit e st = (Res.ok (), { st with log := st.log ++ [e] }) := rfl

@[simp] theorem logLine_apply (m : String) (st : St) :
    logLine m st = (Res.ok (), { st with log := st.log ++ [Event.logMsg m] }) := rfl

@[simp] theorem isfileG_apply (p : String) (st : St) :
    isfileG p st = (Res.ok (isfileF st.fs p), st) := rfl

@[simp] theorem isdirG_apply (p : String) (st : St) :
    isdirG p st = (Res.ok (isdirF st.fs p), st) := rfl

@[simp] theorem existsG_apply (p : String) (st : St) :
    existsG p st = (Res.ok (existsF st.fs p), st) := rfl

@[simp] theorem listdirG_apply (st : St) :
    listdirG st = (Res.ok st.fs.listing, st) := rfl

@[simp] theorem makedirsG_apply (p : String) (st : St) :
    makedirsG p st = (Res.ok (),
      (⟨{ st.fs with dirs := p :: st.fs.dirs },
        st.log ++ [Event.mkdirs p]⟩ : St)) := rfl

theorem readText_apply (p : String) (st : St) :
    readText p st =
      if st.fs.unreadable.contains p then (Res.exc (Err.ioError p), st)
      else
        match lookupFile st.fs p with
        | some (FData.text s) => (Res.ok s, st)
        | _ => (Res.exc (Err.ioError p), st) := rfl

theorem copyG_apply (src dst : String) (st : St) :
    copyG src dst st =
      if st.fs.unreadable.contains src then (Res.exc (Err.ioError src), st)
      else
        match lookupFile st.fs src with
        | none => (Res.exc (Err.ioError src), st)
        | some d => (Res.ok (),
            (⟨setFile st.fs dst d, st.log ++ [Event.copy src dst]⟩ : St)) := rfl

theorem renameG_apply (src dst : String) (st : St) :
    renameG src dst st =
      match lookupFile st.fs src with
      | none => (Res.exc (Err.ioError src), st)
      | some d => (Res.ok (),
          (⟨setFile (removeFile st.fs src) dst d,
            st.log ++ [Event.rename src dst]⟩ : St)) := rfl

theorem moveG_apply (src dst : String) (st : St) :
    moveG src dst st =
      match lookupFile st.fs src with
      | none => (Res.exc (Err.ioError src), st)
      | some d => (Res.ok (),
          (⟨setFile (removeFile st.fs src) dst d,
            st.log ++ [Event.move src dst]⟩ : St)) := rfl

theorem configGet_apply (cfg : Config) (s k : String) (st : St) :
    configGet cfg s k st =
      match cfg.get s k with
      | some v => (Res.ok v, st)
      | none => (Res.exc (Err.noOption s k), st) := rfl

theorem createZipG_apply (filename path : String) (excludes : List String)
    (st : St) :
    createZipG filename path excludes st = (Res.ok (),
      (⟨setFile st.fs filename (FData.zipA (zipWalkEntries st.fs path excludes)),
        st.log ++ [Event.createZip filename]⟩ : St)) := rfl

/-! ## List helper lemmas -/

theorem listLeads_iff (a b : List Char) :
    listLeads a b = true ↔ ∃ t, b = a ++ t := by
  induction a generalizing b with
  | nil => simp [listLeads]
  | cons x xs ih =>
      cases b with
      | nil =>
          simp only [listLeads, List.cons_append]
          constructor
          · intro h; cases h
          · rintro ⟨t, ht⟩; cases ht
      | cons y ys =>
          simp only [listLeads, Bool.and_eq_true, decide_eq_true_eq, ih,
            List.cons_append]
          constructor
          · rintro ⟨rfl, t, rfl⟩; exact ⟨t, rfl⟩
          · rintro ⟨t, ht⟩
            injection ht with h1 h2
            exact ⟨h1.symm, t, h2⟩

theorem listLeads_append_self (a t : List Char) :
    listLeads a (a ++ t) = true :=
  (listLeads_iff a (a ++ t)).2 ⟨t, rfl⟩

theorem zipWalk_keys_sublist (fs : FS) (path : String) (excludes : List String) :
    ((zipWalkEntries fs path excludes).map (fun e => e.1)).Sublist
      (fs.files.map (fun e => e.1)) := by
  unfold zipWalkEntries
  generalize fs.files = l
  induction l with
  | nil => simp
  | cons e rest ih =>
      rw [List.filterMap_cons]
      by_cases h : listLeads (path ++ "/").data e.1.data = true ∧
          ¬ (excludes.contains (extLower e.1) = true)
      · rw [if_pos h, List.map_cons, List.map_cons]
        exact ih.cons₂ e.1
      · rw [if_neg h, List.map_cons]
        exact ih.cons e.1

/-! ## Claim theorems -/

/-- Claim C9: the scoped file writer catches any I/O failure during the
write, logs it together with the destination path, never propagates an
error to its caller, and releases the handle on every exit path: the result
is always ok, each failure case appends the diagnostic naming the
destination, and whenever an open event was emitted a matching close event
was emitted too. -/
theorem claim_C9_saveFile_swallows_errors (data file : String) (st : St) :
    (saveFile data file st).1 = Res.ok () ∧
    (st.fs.unwritableOpen.contains file = true →
      saveFile data file st = (Res.ok (), ⟨st.fs,
        st.log ++ [Event.logMsg (saveErrMsg file), Event.logMsg kodiExcMsg]⟩)) ∧
    (st.fs.unwritableOpen.contains file = false →
     st.fs.writeFails.contains file = true →
      saveFile data file st = (Res.ok (), ⟨setFile st.fs file (FData.text ""),
        st.log ++ [Event.openWrite file, Event.closeFile file,
          Event.logMsg (saveErrMsg file), Event.logMsg kodiExcMsg]⟩)) ∧
    (st.fs.unwritableOpen.contains file = false →
     st.fs.writeFails.contains file = false →
      saveFile data file st = (Res.ok (), ⟨setFile st.fs file (FData.text data),
        st.log ++ [Event.openWrite file, Event.writeData file,
          Event.closeFile file]⟩)) ∧
    (Event.openWrite file ∈ (saveFile data file st).2.log.drop st.log.length →
      Event.closeFile file ∈ (saveFile data file st).2.log.drop st.log.length) ∧
    saveErrMsg file = "**** An error occurred saving " ++ file ++ " file!\n" := by
  unfold saveFile
  rcases h1 : st.fs.unwritableOpen.contains file with _ | _ <;>
    rcases h2 : st.fs.writeFails.contains file with _ | _ <;>
      simp [h1, h2, saveErrMsg, List.drop_left]

/-- Witness for C9: at a concrete state whose write call fails, the writer
returns ok, emits the open and close events, and logs the destination. -/
theorem claim_C9_witness :
    saveFile "d" "f" ⟨⟨[], [], [], [], [], ["f"]⟩, []⟩ =
      (Res.ok (), ⟨setFile ⟨[], [], [], [], [], ["f"]⟩ "f" (FData.text ""),
        [Event.openWrite "f", Event.closeFile "f",
         Event.logMsg (saveErrMsg "f"), Event.logMsg kodiExcMsg]⟩) := by
  have h := (claim_C9_saveFile_swallows_errors "d" "f"
      ⟨⟨[], [], [], [], [], ["f"]⟩, []⟩).2.2.1 (by decide) (by decide)
  simpa using h

/-- Claim C2: the archive built for a package directory contains exactly
those files under the directory whose lowercased extension is not in the
exclusion set; each entry's path is the directory name followed by the
file's path relative to the directory, so relative paths are preserved, and
no file is stored twice when the tree has no duplicate paths. -/
theorem claim_C2_zip_contents (fs : FS) (path : String)
    (excludes : List String) (p c : String) :
    ((p, c) ∈ zipWalkEntries fs path excludes ↔
      ∃ r d, (path ++ "/" ++ r, d) ∈ fs.files ∧ p = path ++ "/" ++ r ∧
        excludes.contains (extLower (path ++ "/" ++ r)) = false ∧
        c = textOf d) ∧
    ((fs.files.map (fun e => e.1)).Nodup →
      ((zipWalkEntries fs path excludes).map (fun e => e.1)).Nodup) := by
  constructor
  · constructor
    · intro hmem
      rw [zipWalkEntries, List.mem_filterMap] at hmem
      obtain ⟨⟨q, d⟩, hq, hf⟩ := hmem
      by_cases hC : listLeads (path ++ "/").data q.data = true ∧
          ¬ (excludes.contains (extLower q) = true)
      · rw [if_pos hC] at hf
        injection hf with h
        injection h with h1 h2
        subst h1; subst h2
        obtain ⟨t, ht⟩ := (listLeads_iff _ _).1 hC.1
        have hq2 : q = path ++ "/" ++ String.mk t := by
          apply String.ext
          rw [String.data_append, String.data_append]
          simpa using ht
        subst hq2
        exact ⟨String.mk t, d, hq, rfl, by simpa using hC.2, rfl⟩
      · rw [if_neg hC] at hf
        cases hf
    · rintro ⟨r, d, hmem, hp, hex, hc⟩
      subst hp; subst hc
      rw [zipWalkEntries, List.mem_filterMap]
      refine ⟨(path ++ "/" ++ r, d), hmem, ?_⟩
      rw [if_pos]
      constructor
      · show listLeads (path ++ "/").data (path ++ "/" ++ r).data = true
        rw [String.data_append]
        exact listLeads_append_self _ _
      · simpa using hex
  · intro hnd
    exact hnd.sublist (zipWalk_keys_sublist fs path excludes)

/-- Witness for C2: in the concrete tree, the python source file is stored
under its directory-qualified relative path while the excluded .pyc file
would not satisfy the filter, and entry keys stay duplicate-free. -/
theorem claim_C2_witness :
    ("A/lib.py", "pycode") ∈ zipWalkEntries fsC "A" [".pyc"] ∧
    ((zipWalkEntries fsC "A" [".pyc"]).map (fun e => e.1)).Nodup :=
  ⟨(claim_C2_zip_contents fsC "A" [".pyc"] "A/lib.py" "pycode").1.2
      ⟨"lib.py", FData.text "pycode", by decide, by decide, by decide, by decide⟩,
   (claim_C2_zip_contents fsC "A" [".pyc"] "" "").2 (by decide)⟩

/-! ## Lookup lemmas for the association-list filesystem -/

@[simp] theorem lookupFile_setFile_same (fs : FS) (p : String) (d : FData) :
    lookupFile (setFile fs p d) p = some d := by
  simp [lookupFile, setFile, List.find?]

theorem find?_filter_ne (l : List (String × FData)) (p q : String) (h : ¬ (q = p)) :
    (l.filter (fun e => ¬ (e.1 = p))).find? (fun e => e.1 = q) =
      l.find? (fun e => e.1 = q) := by
  induction l with
  | nil => rfl
  | cons e rest ih =>
      by_cases h1 : e.1 = p
      · rw [List.filter_cons_of_neg (by simp [h1])]
        rw [ih, List.find?_cons_of_neg _ (by simp [h1]; exact fun hh => h hh.symm)]
      · rw [List.filter_cons_of_pos (by simp [h1])]
        by_cases h2 : e.1 = q
        · rw [List.find?_cons_of_pos _ (by simp [h2]),
            List.find?_cons_of_pos _ (by simp [h2])]
        · rw [List.find?_cons_of_neg _ (by simp [h2]),
            List.find?_cons_of_neg _ (by simp [h2]), ih]

theorem lookupFile_setFile_ne (fs : FS) (p q : String) (d : FData)
    (h : ¬ (q = p)) :
    lookupFile (setFile fs p d) q = lookupFile fs q := by
  simp only [lookupFile, setFile]
  rw [List.find?_cons_of_neg _ (by simp; exact fun hh => h hh.symm),
    find?_filter_ne fs.files p q h]

theorem hexChar_mem (n : Nat) (h : n < 16) : hexChar n ∈ hexAlphabet := by
  interval_cases n <;> decide

theorem hexDigest_lowercase (bs : List Nat) :
    ∀ ch ∈ (hexDigest bs).data, ch ∈ hexAlphabet := by
  intro ch hch
  simp only [hexDigest, List.mem_flatten, List.mem_map] at hch
  obtain ⟨l, ⟨b, _, rfl⟩, hmem⟩ := hch
  simp only [List.mem_cons, List.not_mem_nil, or_false] at hmem
  rcases hmem with h | h
  · exact h ▸ hexChar_mem _ (Nat.mod_lt _ (by norm_num))
  · exact h ▸ hexChar_mem _ (Nat.mod_lt _ (by norm_num))

/-- Claim C8: the integrity stamper hashes the aggregate document's bytes
exactly as persisted in the filesystem, writes the lowercase hex encoding
to the fixed sibling filename next to it, and is deterministic: any run
over a state holding the same aggregate bytes writes the identical stamp. -/
theorem claim_C8_md5_stamp (env : Env) (output_path : String) (st : St)
    (c : String)
    (h1 : lookupFile st.fs (output_path ++ "addons.xml") = some (FData.text c))
    (h2 : st.fs.unreadable.contains (output_path ++ "addons.xml") = false)
    (h3 : st.fs.unwritableOpen.contains (output_path ++ "addons.xml.md5") = false)
    (h4 : st.fs.writeFails.contains (output_path ++ "addons.xml.md5") = false) :
    generateMd5File env output_path st = (Res.ok (),
      ⟨setFile st.fs (output_path ++ "addons.xml.md5")
          (FData.text (hexDigest (env.md5 c))),
        st.log ++ [Event.openWrite (output_path ++ "addons.xml.md5"),
          Event.writeData (output_path ++ "addons.xml.md5"),
          Event.closeFile (output_path ++ "addons.xml.md5")]⟩) ∧
    (∀ ch ∈ (hexDigest (env.md5 c)).data, ch ∈ hexAlphabet) ∧
    (∀ st' : St,
      lookupFile st'.fs (output_path ++ "addons.xml") = some (FData.text c) →
      st'.fs.unreadable.contains (output_path ++ "addons.xml") = false →
      st'.fs.unwritableOpen.contains (output_path ++ "addons.xml.md5") = false →
      st'.fs.writeFails.contains (output_path ++ "addons.xml.md5") = false →
      lookupFile (generateMd5File env output_path st').2.fs
          (output_path ++ "addons.xml.md5") =
        lookupFile (generateMd5File env output_path st).2.fs
          (output_path ++ "addons.xml.md5")) := by
  have main : ∀ st₀ : St,
      lookupFile st₀.fs (output_path ++ "addons.xml") = some (FData.text c) →
      st₀.fs.unreadable.contains (output_path ++ "addons.xml") = false →
      st₀.fs.unwritableOpen.contains (output_path ++ "addons.xml.md5") = false →
      st₀.fs.writeFails.contains (output_path ++ "addons.xml.md5") = false →
      generateMd5File env output_path st₀ = (Res.ok (),
        ⟨setFile st₀.fs (output_path ++ "addons.xml.md5")
            (FData.text (hexDigest (env.md5 c))),
          st₀.log ++ [Event.openWrite (output_path ++ "addons.xml.md5"),
            Event.writeData (output_path ++ "addons.xml.md5"),
            Event.closeFile (output_path ++ "addons.xml.md5")]⟩) := by
    intro st₀ g1 g2 g3 g4
    unfold generateMd5File
    rw [tryAll_apply, bind_apply, readText_apply, g2]
    simp only [Bool.false_eq_true, if_false, g1]
    unfold saveFile
    rw [g3, g4]
    simp
  refine ⟨main st h1 h2 h3 h4, hexDigest_lowercase _, ?_⟩
  intro st' g1 g2 g3 g4
  rw [main st' g1 g2 g3 g4, main st h1 h2 h3 h4]
  simp

/-- Witness for C8: over a concrete state holding aggregate bytes, the
stamp file receives the lowercase hex digest. -/
theorem claim_C8_witness :
    lookupFile (generateMd5File envC "_zip/"
        ⟨⟨[], [("_zip/addons.xml", FData.text "agg")], [], [], [], []⟩, []⟩).2.fs
      "_zip/addons.xml.md5" = some (FData.text "00ff") := by
  have h := (claim_C8_md5_stamp envC "_zip/"
      ⟨⟨[], [("_zip/addons.xml", FData.text "agg")], [], [], [], []⟩, []⟩ "agg"
      (by decide) rfl rfl rfl).1
  rw [h]
  decide

/-- Claim C1 (amended): a package directory whose manifest text fails to
parse is skipped with the error logged and with the filesystem left
untouched, and the archiver continues with the remaining package
directories exactly as if the bad entry were absent.  (The original claim
additionally asserted that a manifest missing the id and version
attributes is skipped; the counterexample shows such a package is archived
with empty id and version instead.) -/
theorem claim_C1_unparsable_isolated (env : Env) (op : String)
    (excl : List String) (acc : Option (String × String)) (a : String)
    (rest : List String) (st : St) (m : String)
    (h1 : lookupFile st.fs (a ++ "/" ++ "addon.xml") = some (FData.text m))
    (h2 : st.fs.unreadable.contains (a ++ "/" ++ "addon.xml") = false)
    (h3 : isdirF st.fs a = true)
    (h4 : [".git", op, env.tools_path].contains a = false)
    (h5 : env.parse m = ParseResult.fail) :
    processAddons env op excl acc (a :: rest) st =
      processAddons env op excl acc rest
        ⟨st.fs, st.log ++ [Event.logMsg kodiExcMsg]⟩ := by
  have hf : isfileF st.fs (a ++ "/" ++ "addon.xml") = true := by
    simp [isfileF, h1]
  have h4' : ¬ (a = ".git" ∨ a = op ∨ a = env.tools_path) := by
    simpa using h4
  have h2' : ¬ ((a ++ "/" ++ "addon.xml") ∈ st.fs.unreadable) := by
    simpa using h2
  simp [processAddons, hf, h3, h4', h2', h1, h5, readText]

/-- Counterexample for C1 as stated: in a run whose only package has a
manifest that parses but carries neither id nor version attribute, the
package is not skipped — its archive is moved below the output path (under
the empty-string id), so it does appear in the output tree. -/
theorem claim_C1_counterexample :
    lookupFile (runInit envC cfgC ⟨fsM, []⟩).2.fs "_zip//apkg-.zip" =
      some (FData.zipA [("apkg/addon.xml", "M0"), ("apkg/f.txt", "x")]) ∧
    Event.move "apkg-.zip" "_zip//apkg-.zip" ∈ (runInit envC cfgC ⟨fsM, []⟩).2.log := by
  decide

/-- Witness for C1: a concrete unparsable package is skipped with only the
logged diagnostic, processing continuing with the next entry. -/
theorem claim_C1_witness :
    processAddons envC "_zip/" [".pyc"] none ["bad", "A"]
        ⟨⟨["bad", "A"], [("bad/addon.xml", FData.text "ZZ")], ["bad"], [], [], []⟩, []⟩ =
      processAddons envC "_zip/" [".pyc"] none ["A"]
        ⟨⟨["bad", "A"], [("bad/addon.xml", FData.text "ZZ")], ["bad"], [], [], []⟩,
          [Event.logMsg kodiExcMsg]⟩ :=
  claim_C1_unparsable_isolated envC "_zip/" [".pyc"] none "bad" ["A"]
    ⟨⟨["bad", "A"], [("bad/addon.xml", FData.text "ZZ")], ["bad"], [], [], []⟩, []⟩
    "ZZ" (by decide) rfl (by decide) (by decide) (by decide)

/-- Claim C6: the archiver's exclusion test compares bare listing names
against the absolute tools path, so the tooling directory is not excluded:
in a tree whose tooling directory holds a manifest, its membership test is
false, its archive is created, and the archive lands in the output tree.
The spec states these directories are always excluded; the code's own
exclusion list names the tools path, so this is a slip in the code. -/
theorem claim_C6_tools_dir_archived :
    ([".git", "_zip/", "/repo/_tools"].contains "_tools") = false ∧
    Event.createZip "_tools-1.0.zip" ∈
      (generateZipFiles envC "_zip/" [".pyc"] ⟨fsT, []⟩).2.log ∧
    lookupFile (generateZipFiles envC "_zip/" [".pyc"] ⟨fsT, []⟩).2.fs
      "_zip/A/_tools-1.0.zip" =
      some (FData.zipA [("_tools/addon.xml", "MA")]) := by
  decide

theorem repoFiles_missing_key (env : Env) (cfg : Config) (op : String)
    (h : cfg.get "addon" "id" = none ∨ cfg.get "addon" "name" = none ∨
      cfg.get "addon" "version" = none ∨ cfg.get "addon" "author" = none ∨
      cfg.get "addon" "summary" = none ∨ cfg.get "addon" "description" = none ∨
      cfg.get "locations" "url" = none) :
    ∀ st : St, ∃ s k, cfg.get s k = none ∧
      generateRepoFiles env cfg op st = (Res.exc (Err.noOption s k), st) := by
  intro st
  rcases h1 : cfg.get "addon" "id" with _ | v1
  · exact ⟨"addon", "id", h1, by simp [generateRepoFiles, configGet, h1]⟩
  rcases h2 : cfg.get "addon" "name" with _ | v2
  · exact ⟨"addon", "name", h2, by simp [generateRepoFiles, configGet, h1, h2]⟩
  rcases h3 : cfg.get "addon" "version" with _ | v3
  · exact ⟨"addon", "version", h3, by simp [generateRepoFiles, configGet, h1, h2, h3]⟩
  rcases h4 : cfg.get "addon" "author" with _ | v4
  · exact ⟨"addon", "author", h4, by simp [generateRepoFiles, configGet, h1, h2, h3, h4]⟩
  rcases h5 : cfg.get "addon" "summary" with _ | v5
  · exact ⟨"addon", "summary", h5, by simp [generateRepoFiles, configGet, h1, h2, h3, h4, h5]⟩
  rcases h6 : cfg.get "addon" "description" with _ | v6
  · exact ⟨"addon", "description", h6,
      by simp [generateRepoFiles, configGet, h1, h2, h3, h4, h5, h6]⟩
  rcases h7 : cfg.get "locations" "url" with _ | v7
  · exact ⟨"locations", "url", h7,
      by simp [generateRepoFiles, configGet, h1, h2, h3, h4, h5, h6, h7]⟩
  exfalso
  rcases h with hh | hh | hh | hh | hh | hh | hh <;>
    first
      | exact Option.noConfusion (h1 ▸ hh)
      | exact Option.noConfusion (h2 ▸ hh)
      | exact Option.noConfusion (h3 ▸ hh)
      | exact Option.noConfusion (h4 ▸ hh)
      | exact Option.noConfusion (h5 ▸ hh)
      | exact Option.noConfusion (h6 ▸ hh)
      | exact Option.noConfusion (h7 ▸ hh)

/-- Claim C4 (amended): a configuration missing the output path or the
exclusion list fails with a configuration error before any file I/O; a
configuration missing any of the seven remaining required options also
fails fatally with a configuration error, but only after the output
directory may already have been created, which is the sole file I/O event
preceding the failure; and over a complete configuration the accessor
returns exactly the configured value.  (The original claim asserted that
every missing required option aborts before any file I/O; the
counterexample shows the output directory is created first.) -/
theorem claim_C4_config_errors (env : Env) (cfg : Config) :
    (∀ fs : FS, cfg.get "locations" "output_path" = none →
      runInit env cfg ⟨fs, []⟩ =
        (Res.exc (Err.noOption "locations" "output_path"), ⟨fs, []⟩)) ∧
    (∀ (fs : FS) (op : String), cfg.get "locations" "output_path" = some op →
      cfg.get "addon" "excludes" = none →
      runInit env cfg ⟨fs, []⟩ =
        (Res.exc (Err.noOption "addon" "excludes"), ⟨fs, []⟩)) ∧
    (∀ (fs : FS) (op ex : String),
      cfg.get "locations" "output_path" = some op →
      cfg.get "addon" "excludes" = some ex →
      (cfg.get "addon" "id" = none ∨ cfg.get "addon" "name" = none ∨
       cfg.get "addon" "version" = none ∨ cfg.get "addon" "author" = none ∨
       cfg.get "addon" "summary" = none ∨ cfg.get "addon" "description" = none ∨
       cfg.get "locations" "url" = none) →
      (∃ s k, cfg.get s k = none ∧
        (runInit env cfg ⟨fs, []⟩).1 = Res.exc (Err.noOption s k)) ∧
      (∀ e ∈ (runInit env cfg ⟨fs, []⟩).2.log,
        ioEvent e = true → e = Event.mkdirs ("_" ++ op))) ∧
    (∀ (s k v : String) (st : St), cfg.get s k = some v →
      configGet cfg s k st = (Res.ok v, st)) := by
  refine ⟨?_, ?_, ?_, ?_⟩
  · intro fs h
    simp [runInit, configGet, h]
  · intro fs op hop hex
    simp [runInit, configGet, hop, hex]
  · intro fs op ex hop hex hmiss
    by_cases hpr : existsF fs ("_" ++ op) = true
    · obtain ⟨s, k, hk, hrf⟩ := repoFiles_missing_key env cfg ("_" ++ op) hmiss
        ⟨fs, []⟩
      have hrun : runInit env cfg ⟨fs, []⟩ =
          (Res.exc (Err.noOption s k), ⟨fs, []⟩) := by
        simp [runInit, configGet, hop, hex, preRun, ensureDir, hpr, hrf]
      rw [hrun]
      exact ⟨⟨s, k, hk, rfl⟩, by intro e he; cases he⟩
    · obtain ⟨s, k, hk, hrf⟩ := repoFiles_missing_key env cfg ("_" ++ op)
        hmiss ⟨{ fs with dirs := ("_" ++ op) :: fs.dirs }, [Event.mkdirs ("_" ++ op)]⟩
      have hrun : runInit env cfg ⟨fs, []⟩ =
          (Res.exc (Err.noOption s k),
            ⟨{ fs with dirs := ("_" ++ op) :: fs.dirs }, [Event.mkdirs ("_" ++ op)]⟩) := by
        simp [runInit, configGet, hop, hex, preRun, ensureDir, hpr, hrf]
      rw [hrun]
      refine ⟨⟨s, k, hk, rfl⟩, ?_⟩
      intro e he _
      simpa using he
  · intro s k v st h
    simp [configGet, h]

/-- Counterexample for C4 as stated: with the addon id missing, the run
does fail with a configuration error, but the output directory creation —
a file I/O effect — has already happened by then. -/
theorem claim_C4_counterexample :
    (runInit envC cfgNoId ⟨⟨[], [], [], [], [], []⟩, []⟩).1 =
      Res.exc (Err.noOption "addon" "id") ∧
    Event.mkdirs "_zip/" ∈ (runInit envC cfgNoId ⟨⟨[], [], [], [], [], []⟩, []⟩).2.log := by
  decide

/-- Witness for C4: the amended theorem applied to the concrete
id-less configuration over an empty tree. -/
theorem claim_C4_witness :
    (∃ s k, cfgNoId.get s k = none ∧
      (runInit envC cfgNoId ⟨⟨[], [], [], [], [], []⟩, []⟩).1 =
        Res.exc (Err.noOption s k)) ∧
    (∀ e ∈ (runInit envC cfgNoId ⟨⟨[], [], [], [], [], []⟩, []⟩).2.log,
      ioEvent e = true → e = Event.mkdirs ("_" ++ "zip/")) :=
  (claim_C4_config_errors envC cfgNoId).2.2.1 ⟨[], [], [], [], [], []⟩ "zip/" ".pyc"
    (by decide) (by decide) (Or.inl (by decide))

theorem emitsOnly_pure {α : Type} (a : α) (P : Event → Prop) :
    EmitsOnly (pure a : Gen α) P := fun st => ⟨[], by simp⟩

theorem emitsOnly_throwG {α : Type} (er : Err) (P : Event → Prop) :
    EmitsOnly (throwG er : Gen α) P := fun st => ⟨[], by simp⟩

theorem emitsOnly_bind {α β : Type} {x : Gen α} {f : α → Gen β}
    {P : Event → Prop} (hx : EmitsOnly x P) (hf : ∀ a, EmitsOnly (f a) P) :
    EmitsOnly (x >>= f) P := by
  intro st
  obtain ⟨Δ1, h1, hp1⟩ := hx st
  rcases hx2 : x st with ⟨r, st'⟩
  cases r with
  | ok a =>
      obtain ⟨Δ2, h2, hp2⟩ := hf a st'
      refine ⟨Δ1 ++ Δ2, ?_, ?_⟩
      · rw [bind_apply, hx2]
        simp only []
        rw [h2]
        rw [hx2] at h1
        simp only [] at h1
        rw [h1, List.append_assoc]
      · intro e he
        rcases List.mem_append.mp he with h | h
        · exact hp1 e h
        · exact hp2 e h
  | exc er =>
      refine ⟨Δ1, ?_, hp1⟩
      rw [bind_apply, hx2]
      rw [hx2] at h1
      simpa using h1

theorem emitsOnly_tryAll {α : Type} {x : Gen α} {h : Err → Gen α}
    {P : Event → Prop} (hx : EmitsOnly x P) (hh : ∀ er, EmitsOnly (h er) P) :
    EmitsOnly (tryAll x h) P := by
  intro st
  obtain ⟨Δ1, h1, hp1⟩ := hx st
  rcases hx2 : x st with ⟨r, st'⟩
  cases r with
  | ok a =>
      refine ⟨Δ1, ?_, hp1⟩
      rw [tryAll_apply, hx2]
      rw [hx2] at h1
      simpa using h1
  | exc er =>
      obtain ⟨Δ2, h2, hp2⟩ := hh er st'
      refine ⟨Δ1 ++ Δ2, ?_, ?_⟩
      · rw [tryAll_apply, hx2]
        simp only []
        rw [h2]
        rw [hx2] at h1
        simp only [] at h1
        rw [h1, List.append_assoc]
      · intro e he
        rcases List.mem_append.mp he with h | h
        · exact hp1 e h
        · exact hp2 e h

theorem emitsOnly_ite {α : Type} {c : Prop} [Decidable c] {x y : Gen α}
    {P : Event → Prop} (hx : EmitsOnly x P) (hy : EmitsOnly y P) :
    EmitsOnly (if c then x else y) P := by
  by_cases h : c
  · simpa [h] using hx
  · simpa [h] using hy

theorem emitsOnly_emit {e : Event} {P : Event → Prop} (h : P e) :
    EmitsOnly (emit e) P := fun st => ⟨[e], by simpa using h⟩

theorem emitsOnly_logLine {m : String} {P : Event → Prop}
    (h : P (Event.logMsg m)) : EmitsOnly (logLine m) P :=
  emitsOnly_emit h

theorem emitsOnly_silent {α : Type} {x : Gen α} {P : Event → Prop}
    (h : ∀ st, (x st).2 = st) : EmitsOnly x P := by
  intro st
  exact ⟨[], by rw [h st]; simp, by simp⟩

theorem emitsOnly_configGet (cfg : Config) (s k : String) (P : Event → Prop) :
    EmitsOnly (configGet cfg s k) P := by
  apply emitsOnly_silent
  intro st
  unfold configGet
  rcases cfg.get s k with _ | v <;> rfl

theorem emitsOnly_isfileG (p : String) (P : Event → Prop) :
    EmitsOnly (isfileG p) P := emitsOnly_silent (fun _ => rfl)

theorem emitsOnly_isdirG (p : String) (P : Event → Prop) :
    EmitsOnly (isdirG p) P := emitsOnly_silent (fun _ => rfl)

theorem emitsOnly_existsG (p : String) (P : Event → Prop) :
    EmitsOnly (existsG p) P := emitsOnly_silent (fun _ => rfl)

theorem emitsOnly_listdirG (P : Event → Prop) :
    EmitsOnly listdirG P := emitsOnly_silent (fun _ => rfl)

theorem emitsOnly_readText (p : String) (P : Event → Prop) :
    EmitsOnly (readText p) P := by
  apply emitsOnly_silent
  intro st
  unfold readText
  by_cases h : p ∈ st.fs.unreadable
  · simp [h]
  · rcases lookupFile st.fs p with _ | d
    · simp [h]
    · cases d <;> simp [h]

theorem emitsOnly_makedirsG (p : String) {P : Event → Prop}
    (h : P (Event.mkdirs p)) : EmitsOnly (makedirsG p) P := by
  intro st
  exact ⟨[Event.mkdirs p], rfl, by simpa using h⟩

theorem emitsOnly_copyG (src dst : String) {P : Event → Prop}
    (h : P (Event.copy src dst)) : EmitsOnly (copyG src dst) P := by
  intro st
  unfold copyG
  by_cases h1 : src ∈ st.fs.unreadable
  · exact ⟨[], by simp [h1], by simp⟩
  · rcases h2 : lookupFile st.fs src with _ | d
    · exact ⟨[], by simp [h1, h2], by simp⟩
    · exact ⟨[Event.copy src dst], by simp [h1, h2], by simpa using h⟩

theorem emitsOnly_renameG (src dst : String) {P : Event → Prop}
    (h : P (Event.rename src dst)) : EmitsOnly (renameG src dst) P := by
  intro st
  unfold renameG
  rcases h2 : lookupFile st.fs src with _ | d
  · exact ⟨[], by simp [h2], by simp⟩
  · exact ⟨[Event.rename src dst], by simp [h2], by simpa using h⟩

theorem emitsOnly_moveG (src dst : String) {P : Event → Prop}
    (h : P (Event.move src dst)) : EmitsOnly (moveG src dst) P := by
  intro st
  unfold moveG
  rcases h2 : lookupFile st.fs src with _ | d
  · exact ⟨[], by simp [h2], by simp⟩
  · exact ⟨[Event.move src dst], by simp [h2], by simpa using h⟩

theorem emitsOnly_createZipG (filename path : String) (excl : List String)
    {P : Event → Prop} (h : P (Event.createZip filename)) :
    EmitsOnly (createZipG filename path excl) P := by
  intro st
  exact ⟨[Event.createZip filename], rfl, by simpa using h⟩

theorem emitsOnly_saveFile (data file : String) {P : Event → Prop}
    (h1 : P (Event.openWrite file)) (h2 : P (Event.writeData file))
    (h3 : P (Event.closeFile file)) (h4 : P (Event.logMsg (saveErrMsg file)))
    (h5 : P (Event.logMsg kodiExcMsg)) :
    EmitsOnly (saveFile data file) P := by
  intro st
  unfold saveFile
  by_cases c1 : file ∈ st.fs.unwritableOpen
  · refine ⟨[Event.logMsg (saveErrMsg file), Event.logMsg kodiExcMsg],
      by simp [c1], ?_⟩
    intro e he
    simp only [List.mem_cons, List.not_mem_nil, or_false] at he
    rcases he with h | h
    · exact h ▸ h4
    · exact h ▸ h5
  · by_cases c2 : file ∈ st.fs.writeFails
    · refine ⟨[Event.openWrite file, Event.closeFile file,
        Event.logMsg (saveErrMsg file), Event.logMsg kodiExcMsg],
        by simp [c1, c2], ?_⟩
      intro e he
      simp only [List.mem_cons, List.not_mem_nil, or_false] at he
      rcases he with h | h | h | h
      · exact h ▸ h1
      · exact h ▸ h3
      · exact h ▸ h4
      · exact h ▸ h5
    · refine ⟨[Event.openWrite file, Event.writeData file, Event.closeFile file],
        by simp [c1, c2], ?_⟩
      intro e he
      simp only [List.mem_cons, List.not_mem_nil, or_false] at he
      rcases he with h | h | h
      · exact h ▸ h1
      · exact h ▸ h2
      · exact h ▸ h3


theorem notCreate_cases :
    (∀ p, notCreate (Event.mkdirs p)) ∧ (∀ p, notCreate (Event.openWrite p)) ∧
    (∀ p, notCreate (Event.writeData p)) ∧ (∀ p, notCreate (Event.closeFile p)) ∧
    (∀ s d, notCreate (Event.rename s d)) ∧ (∀ s d, notCreate (Event.move s d)) ∧
    (∀ s d, notCreate (Event.copy s d)) ∧ (∀ m, notCreate (Event.logMsg m)) := by
  refine ⟨?_, ?_, ?_, ?_, ?_, ?_, ?_, ?_⟩ <;> (intros; intro q h; cases h)

theorem notWrite_cases :
    (∀ p, notWrite (Event.mkdirs p)) ∧ (∀ p, notWrite (Event.createZip p)) ∧
    (∀ s d, notWrite (Event.rename s d)) ∧ (∀ s d, notWrite (Event.move s d)) ∧
    (∀ s d, notWrite (Event.copy s d)) ∧ (∀ m, notWrite (Event.logMsg m)) := by
  refine ⟨?_, ?_, ?_, ?_, ?_, ?_⟩ <;> (intros; intro q h; cases h)

theorem emitsOnly_ensureDir (p : String) {P : Event → Prop}
    (h : P (Event.mkdirs p)) : EmitsOnly (ensureDir p) P := by
  unfold ensureDir
  exact emitsOnly_bind (emitsOnly_existsG _ _) (fun b =>
    emitsOnly_ite (emitsOnly_makedirsG _ h) (emitsOnly_pure _ _))

theorem emitsOnly_backupExisting (dst ts : String) {P : Event → Prop}
    (h : P (Event.rename dst (dst ++ "." ++ ts))) :
    EmitsOnly (backupExisting dst ts) P := by
  unfold backupExisting
  exact emitsOnly_bind (emitsOnly_isfileG _ _) (fun b =>
    emitsOnly_ite (emitsOnly_renameG _ _ h) (emitsOnly_pure _ _))

theorem emitsOnly_preRun (op : String) : EmitsOnly (preRun op) notCreate :=
  emitsOnly_ensureDir op (notCreate_cases.1 _)

set_option maxHeartbeats 1000000 in
theorem emitsOnly_generateRepoFiles (env : Env) (cfg : Config) (op : String) :
    EmitsOnly (generateRepoFiles env cfg op) notCreate := by
  unfold generateRepoFiles
  refine emitsOnly_bind (emitsOnly_configGet _ _ _ _) (fun a1 => ?_)
  refine emitsOnly_bind (emitsOnly_configGet _ _ _ _) (fun a2 => ?_)
  refine emitsOnly_bind (emitsOnly_configGet _ _ _ _) (fun a3 => ?_)
  refine emitsOnly_bind (emitsOnly_configGet _ _ _ _) (fun a4 => ?_)
  refine emitsOnly_bind (emitsOnly_configGet _ _ _ _) (fun a5 => ?_)
  refine emitsOnly_bind (emitsOnly_configGet _ _ _ _) (fun a6 => ?_)
  refine emitsOnly_bind (emitsOnly_configGet _ _ _ _) (fun a7 => ?_)
  refine emitsOnly_bind (emitsOnly_isfileG _ _) (fun b => ?_)
  refine emitsOnly_ite (emitsOnly_pure _ _) ?_
  refine emitsOnly_bind (emitsOnly_logLine (notCreate_cases.2.2.2.2.2.2.2 _)) (fun _ => ?_)
  refine emitsOnly_bind (emitsOnly_readText _ _) (fun t => ?_)
  refine emitsOnly_bind (emitsOnly_ensureDir _ (notCreate_cases.1 _)) (fun _ => ?_)
  exact emitsOnly_saveFile _ _ (notCreate_cases.2.1 _) (notCreate_cases.2.2.1 _)
    (notCreate_cases.2.2.2.1 _) (notCreate_cases.2.2.2.2.2.2.2 _)
    (notCreate_cases.2.2.2.2.2.2.2 _)

theorem emitsOnly_addonsLoop (l : List String) (acc : String) :
    EmitsOnly (addonsLoop l acc) notCreate := by
  induction l generalizing acc with
  | nil => exact emitsOnly_pure _ _
  | cons a rest ih =>
      unfold addonsLoop
      refine emitsOnly_bind (emitsOnly_isfileG _ _) (fun b => ?_)
      refine emitsOnly_ite ?_ (ih acc)
      refine emitsOnly_bind (emitsOnly_tryAll
        (emitsOnly_bind (emitsOnly_readText _ _) (fun c => emitsOnly_pure _ _))
        (fun er => ?_)) (fun acc2 => ih acc2)
      refine emitsOnly_bind (emitsOnly_logLine (notCreate_cases.2.2.2.2.2.2.2 _))
        (fun _ => ?_)
      refine emitsOnly_bind (emitsOnly_logLine (notCreate_cases.2.2.2.2.2.2.2 _))
        (fun _ => ?_)
      exact emitsOnly_bind (emitsOnly_logLine (notCreate_cases.2.2.2.2.2.2.2 _))
        (fun _ => emitsOnly_pure _ _)

theorem emitsOnly_generateAddonsFile (op : String) :
    EmitsOnly (generateAddonsFile op) notCreate := by
  unfold generateAddonsFile
  refine emitsOnly_bind (emitsOnly_listdirG _) (fun l => ?_)
  refine emitsOnly_bind (emitsOnly_addonsLoop _ _) (fun body => ?_)
  exact emitsOnly_saveFile _ _ (notCreate_cases.2.1 _) (notCreate_cases.2.2.1 _)
    (notCreate_cases.2.2.2.1 _) (notCreate_cases.2.2.2.2.2.2.2 _)
    (notCreate_cases.2.2.2.2.2.2.2 _)

theorem emitsOnly_generateMd5File (env : Env) (op : String) :
    EmitsOnly (generateMd5File env op) notCreate := by
  unfold generateMd5File
  refine emitsOnly_tryAll ?_ (fun er => ?_)
  · refine emitsOnly_bind (emitsOnly_readText _ _) (fun c => ?_)
    exact emitsOnly_saveFile _ _ (notCreate_cases.2.1 _) (notCreate_cases.2.2.1 _)
      (notCreate_cases.2.2.2.1 _) (notCreate_cases.2.2.2.2.2.2.2 _)
      (notCreate_cases.2.2.2.2.2.2.2 _)
  · exact emitsOnly_bind (emitsOnly_logLine (notCreate_cases.2.2.2.2.2.2.2 _))
      (fun _ => emitsOnly_logLine (notCreate_cases.2.2.2.2.2.2.2 _))

set_option maxHeartbeats 1000000 in
theorem emitsOnly_generateZipFile (env : Env) (op : String)
    (excl : List String) (path version addonid : String) :
    EmitsOnly (generateZipFile env op excl path version addonid) notWrite := by
  unfold generateZipFile
  refine emitsOnly_bind (emitsOnly_logLine (notWrite_cases.2.2.2.2.2 _)) (fun _ => ?_)
  refine emitsOnly_tryAll ?_ (fun er => emitsOnly_logLine (notWrite_cases.2.2.2.2.2 _))
  refine emitsOnly_bind (emitsOnly_createZipG _ _ _ (notWrite_cases.2.1 _)) (fun _ => ?_)
  refine emitsOnly_bind (emitsOnly_ensureDir _ (notWrite_cases.1 _)) (fun _ => ?_)
  refine emitsOnly_bind (emitsOnly_backupExisting _ _ (notWrite_cases.2.2.1 _ _)) (fun _ => ?_)
  refine emitsOnly_bind (emitsOnly_moveG _ _ (notWrite_cases.2.2.2.1 _ _)) (fun _ => ?_)
  refine emitsOnly_bind (emitsOnly_copyG _ _ (notWrite_cases.2.2.2.2.1 _ _)) (fun _ => ?_)
  refine emitsOnly_bind (emitsOnly_tryAll
    (emitsOnly_copyG _ _ (notWrite_cases.2.2.2.2.1 _ _))
    (fun er => emitsOnly_logLine (notWrite_cases.2.2.2.2.2 _))) (fun _ => ?_)
  exact emitsOnly_tryAll
    (emitsOnly_copyG _ _ (notWrite_cases.2.2.2.2.1 _ _))
    (fun er => emitsOnly_logLine (notWrite_cases.2.2.2.2.2 _))

set_option maxHeartbeats 1000000 in
theorem emitsOnly_processAddons (env : Env) (op : String) (excl : List String)
    (acc : Option (String × String)) (l : List String) :
    EmitsOnly (processAddons env op excl acc l) notWrite := by
  induction l generalizing acc with
  | nil => exact emitsOnly_pure _ _
  | cons a rest ih =>
      unfold processAddons
      refine emitsOnly_bind (emitsOnly_isfileG _ _) (fun b => ?_)
      refine emitsOnly_ite ?_ (ih acc)
      refine emitsOnly_bind (emitsOnly_tryAll ?_ (fun er =>
        emitsOnly_bind (emitsOnly_logLine (notWrite_cases.2.2.2.2.2 _))
          (fun _ => emitsOnly_pure _ _))) (fun acc2 => ih acc2)
      refine emitsOnly_bind (emitsOnly_isdirG _ _) (fun bd => ?_)
      refine emitsOnly_ite (emitsOnly_pure _ _) ?_
      refine emitsOnly_bind (emitsOnly_readText _ _) (fun content => ?_)
      rcases hp : env.parse content with _ | elems
      · exact emitsOnly_throwG _ _
      · simp only []
        rcases hl : elems.getLast? with _ | el
        · rcases acc with _ | vi
          · simp only []
            exact emitsOnly_throwG _ _
          · rcases vi with ⟨v, i⟩
            simp only []
            exact emitsOnly_bind (emitsOnly_generateZipFile _ _ _ _ _ _)
              (fun _ => emitsOnly_pure _ _)
        · simp only []
          exact emitsOnly_bind (emitsOnly_generateZipFile _ _ _ _ _ _)
            (fun _ => emitsOnly_pure _ _)

set_option maxHeartbeats 1000000 in
theorem emitsOnly_generateZipFiles (env : Env) (op : String)
    (excl : List String) : EmitsOnly (generateZipFiles env op excl) notWrite := by
  unfold generateZipFiles
  exact emitsOnly_bind (emitsOnly_listdirG _)
    (fun l => emitsOnly_processAddons env op excl none l)

theorem splitCW_of_emitsW {α : Type} {y : Gen α}
    (h : EmitsOnly y notWrite) : SplitCW y := by
  intro st
  obtain ⟨Δ, h1, h2⟩ := h st
  exact ⟨[], Δ, by simpa using h1, by simp, h2⟩

theorem splitCW_bind {α β : Type} {x : Gen α} {k : α → Gen β}
    (hx : EmitsOnly x notCreate) (hk : ∀ a, SplitCW (k a)) :
    SplitCW (x >>= k) := by
  intro st
  obtain ⟨Δ1, h1, hp1⟩ := hx st
  rcases hx2 : x st with ⟨r, st2⟩
  cases r with
  | ok a =>
      obtain ⟨A, B, h2, hA, hB⟩ := hk a st2
      refine ⟨Δ1 ++ A, B, ?_, ?_, hB⟩
      · rw [bind_apply, hx2]
        simp only []
        rw [h2]
        rw [hx2] at h1
        simp only [] at h1
        rw [h1]
        simp [List.append_assoc]
      · intro e he
        rcases List.mem_append.mp he with h | h
        · exact hp1 e h
        · exact hA e h
  | exc er =>
      refine ⟨Δ1, [], ?_, hp1, by simp⟩
      rw [bind_apply, hx2]
      rw [hx2] at h1
      simpa using h1

theorem splitCW_runInit (env : Env) (cfg : Config) :
    SplitCW (runInit env cfg) := by
  unfold runInit
  refine splitCW_bind (emitsOnly_configGet _ _ _ _) (fun op => ?_)
  refine splitCW_bind (emitsOnly_configGet _ _ _ _) (fun ex => ?_)
  refine splitCW_bind (emitsOnly_preRun _) (fun _ => ?_)
  refine splitCW_bind (emitsOnly_generateRepoFiles _ _ _) (fun _ => ?_)
  refine splitCW_bind (emitsOnly_generateAddonsFile _) (fun _ => ?_)
  refine splitCW_bind (emitsOnly_generateMd5File _ _) (fun _ => ?_)
  refine splitCW_of_emitsW ?_
  refine emitsOnly_bind (emitsOnly_generateZipFiles _ _ _) (fun _ => ?_)
  exact emitsOnly_bind (emitsOnly_logLine (notWrite_cases.2.2.2.2.2 _))
    (fun _ => emitsOnly_logLine (notWrite_cases.2.2.2.2.2 _))

theorem mem_of_getElem? {α : Type} {l : List α} {i : Nat} {a : α}
    (h : l[i]? = some a) : a ∈ l := by
  rw [← List.get?_eq_getElem?] at h
  exact List.get?_mem h

/-- Claim C3 (amended): the pipeline stages run in the source order
pre-run, bootstrapper, aggregator, stamper, archiver — so the Index
Aggregator and Integrity Stamper complete before the Package Archiver
begins, the reverse of the claimed 3-before-4 ordering: in every run's
log, each aggregate-write event precedes each archive-creation event. -/
theorem claim_C3_aggregator_before_archiver (env : Env) (cfg : Config) (fs : FS) :
    ∃ A B : List Event, (runInit env cfg ⟨fs, []⟩).2.log = A ++ B ∧
      (∀ e ∈ A, notCreate e) ∧ (∀ e ∈ B, notWrite e) ∧
      (∀ (i j : Nat) (p f : String),
        (runInit env cfg ⟨fs, []⟩).2.log[i]? = some (Event.writeData p) →
        (runInit env cfg ⟨fs, []⟩).2.log[j]? = some (Event.createZip f) →
        i < j) := by
  obtain ⟨A, B, h1, hA, hB⟩ := splitCW_runInit env cfg ⟨fs, []⟩
  simp only [List.nil_append] at h1
  refine ⟨A, B, h1, hA, hB, ?_⟩
  intro i j p f hi hj
  rw [h1] at hi hj
  have hiA : i < A.length := by
    by_contra hc
    push_neg at hc
    rw [List.getElem?_append_right hc] at hi
    exact (hB _ (mem_of_getElem? hi)) p rfl
  have hjB : A.length ≤ j := by
    by_contra hc
    push_neg at hc
    rw [List.getElem?_append_left hc] at hj
    exact (hA _ (mem_of_getElem? hj)) f rfl
  omega

/-- Counterexample for C3 as stated: in a concrete complete run the
aggregate document write (an Index Aggregator event) occurs at index 2,
strictly before the archive creation (a Package Archiver event) at index
8, contradicting that the archiver completes before the aggregator
begins. -/
theorem claim_C3_counterexample :
    (runInit envC cfgC ⟨fsC, []⟩).2.log[2]? = some (Event.writeData "_zip/addons.xml") ∧
    (runInit envC cfgC ⟨fsC, []⟩).2.log[8]? = some (Event.createZip "A-1.0.zip") ∧
    (2 : Nat) < 8 := by
  decide

/-- Witness for C3: the amended ordering theorem applied at the concrete
run, with both events exhibited. -/
theorem claim_C3_witness :
    (runInit envC cfgC ⟨fsC, []⟩).2.log[2]? = some (Event.writeData "_zip/addons.xml") ∧
    (runInit envC cfgC ⟨fsC, []⟩).2.log[8]? = some (Event.createZip "A-1.0.zip") ∧
    (2 : Nat) < 8 := by
  obtain ⟨A, B, h1, hA, hB, h4⟩ := claim_C3_aggregator_before_archiver envC cfgC fsC
  exact ⟨by decide, by decide, h4 2 8 "_zip/addons.xml" "A-1.0.zip" (by decide) (by decide)⟩

theorem lexLt_append_right (l r1 r2 : List Char)
    (h : List.Lex (· < ·) r1 r2) :
    List.Lex (· < ·) (l ++ r1) (l ++ r2) := by
  induction l with
  | nil => simpa using h
  | cons a t ih => exact List.Lex.cons ih

theorem lexLt_append_of_lt (l1 l2 r1 r2 : List Char)
    (hlen : l1.length = l2.length) (h : List.Lex (· < ·) l1 l2) :
    List.Lex (· < ·) (l1 ++ r1) (l2 ++ r2) := by
  induction h with
  | nil => simp at hlen
  | rel hab => exact List.Lex.rel hab
  | cons hlt ih =>
      refine List.Lex.cons (ih ?_)
      simpa using hlen

theorem digitChar_lt (a b : Nat) (ha : a < 10) (hb : b < 10) (h : a < b) :
    Nat.digitChar a < Nat.digitChar b := by
  interval_cases a <;> interval_cases b <;> simp_all <;> decide

theorem pad2_length (n : Nat) : (pad2 n).length = 2 := rfl

theorem pad4_length (n : Nat) : (pad4 n).length = 4 := rfl

theorem strftime_length (t : DateTime) : (strftimeYmdHMS t).data.length = 14 := rfl

theorem pad2_lt (a b : Nat) (ha : a < 100) (hb : b < 100) (h : a < b) :
    List.Lex (· < ·) (pad2 a) (pad2 b) := by
  unfold pad2
  rcases Nat.lt_or_ge (a / 10) (b / 10) with hd | hd
  · refine List.Lex.rel ?_
    have h1 : a / 10 % 10 = a / 10 := Nat.mod_eq_of_lt (by omega)
    have h2 : b / 10 % 10 = b / 10 := Nat.mod_eq_of_lt (by omega)
    rw [h1, h2]
    exact digitChar_lt _ _ (by omega) (by omega) hd
  · have hde : a / 10 = b / 10 := by omega
    have hm : a % 10 < b % 10 := by omega
    rw [hde]
    exact List.Lex.cons (List.Lex.rel (digitChar_lt _ _ (by omega) (by omega) hm))

theorem pad4_lt (a b : Nat) (ha : a < 10000) (hb : b < 10000) (h : a < b) :
    List.Lex (· < ·) (pad4 a) (pad4 b) := by
  unfold pad4
  rcases Nat.lt_or_ge (a / 100) (b / 100) with hd | hd
  · exact lexLt_append_of_lt _ _ _ _ (by rw [pad2_length, pad2_length])
      (pad2_lt _ _ (by omega) (by omega) hd)
  · have hde : a / 100 = b / 100 := by omega
    have hm : a % 100 < b % 100 := by omega
    rw [hde]
    exact lexLt_append_right _ _ _ (pad2_lt _ _ (by omega) (by omega) hm)

theorem strftime_mono (t1 t2 : DateTime) (h1 : dtValid t1) (h2 : dtValid t2)
    (h : dtLt t1 t2) :
    List.Lex (· < ·) (strftimeYmdHMS t1).data (strftimeYmdHMS t2).data := by
  show List.Lex (· < ·) (strftimeChars t1) (strftimeChars t2)
  obtain ⟨hy1, hmo1, hd1, hh1, hmi1, hs1⟩ := h1
  obtain ⟨hy2, hmo2, hd2, hh2, hmi2, hs2⟩ := h2
  unfold strftimeChars
  rcases h with hy | ⟨hye, h⟩
  · exact lexLt_append_of_lt _ _ _ _ (by rw [pad4_length, pad4_length])
      (pad4_lt _ _ hy1 hy2 hy)
  rw [hye]
  refine lexLt_append_right _ _ _ ?_
  rcases h with hmo | ⟨hmoe, h⟩
  · exact lexLt_append_of_lt _ _ _ _ (by rw [pad2_length, pad2_length])
      (pad2_lt _ _ hmo1 hmo2 hmo)
  rw [hmoe]
  refine lexLt_append_right _ _ _ ?_
  rcases h with hd | ⟨hde, h⟩
  · exact lexLt_append_of_lt _ _ _ _ (by rw [pad2_length, pad2_length])
      (pad2_lt _ _ hd1 hd2 hd)
  rw [hde]
  refine lexLt_append_right _ _ _ ?_
  rcases h with hh | ⟨hhe, h⟩
  · exact lexLt_append_of_lt _ _ _ _ (by rw [pad2_length, pad2_length])
      (pad2_lt _ _ hh1 hh2 hh)
  rw [hhe]
  refine lexLt_append_right _ _ _ ?_
  rcases h with hmi | ⟨hmie, h⟩
  · exact lexLt_append_of_lt _ _ _ _ (by rw [pad2_length, pad2_length])
      (pad2_lt _ _ hmi1 hmi2 hmi)
  rw [hmie]
  exact lexLt_append_right _ _ _ (pad2_lt _ _ hs1 hs2 h)


/-- Lookup at q is unchanged by removing a different key. -/
theorem lookupFile_removeFile_ne (fs : FS) (p q : String) (h : ¬ (q = p)) :
    lookupFile (removeFile fs p) q = lookupFile fs q := by
  simp only [lookupFile, removeFile]
  rw [find?_filter_ne fs.files p q h]

theorem keyPres_pure {α : Type} (a : α) (q : String) :
    KeyPres (pure a : Gen α) q := fun _ => rfl

theorem keyPres_throwG {α : Type} (e : Err) (q : String) :
    KeyPres (throwG e : Gen α) q := fun _ => rfl

theorem keyPres_bind {α β : Type} {x : Gen α} {f : α → Gen β} {q : String}
    (hx : KeyPres x q) (hf : ∀ a, KeyPres (f a) q) : KeyPres (x >>= f) q := by
  intro st
  rw [bind_apply]
  rcases hx2 : x st with ⟨r, st2⟩
  cases r with
  | ok a =>
      have := hf a st2
      rw [this]
      have hx3 := hx st
      rw [hx2] at hx3
      exact hx3
  | exc e =>
      have hx3 := hx st
      rw [hx2] at hx3
      exact hx3

theorem keyPres_tryAll {α : Type} {x : Gen α} {h : Err → Gen α} {q : String}
    (hx : KeyPres x q) (hh : ∀ er, KeyPres (h er) q) : KeyPres (tryAll x h) q := by
  intro st
  rw [tryAll_apply]
  rcases hx2 : x st with ⟨r, st2⟩
  cases r with
  | ok a =>
      have hx3 := hx st
      rw [hx2] at hx3
      exact hx3
  | exc er =>
      have := hh er st2
      rw [this]
      have hx3 := hx st
      rw [hx2] at hx3
      exact hx3

theorem keyPres_logLine (m : String) (q : String) : KeyPres (logLine m) q :=
  fun _ => rfl

theorem keyPres_copyG (src dst q : String) (h : ¬ (q = dst)) :
    KeyPres (copyG src dst) q := by
  intro st
  unfold copyG
  by_cases h1 : src ∈ st.fs.unreadable
  · simp [h1]
  · rw [if_neg (show ¬ (st.fs.unreadable.contains src = true) by simpa using h1)]
    rcases h2 : lookupFile st.fs src with _ | d
    · simp [h2]
    · simp only [h2]
      exact lookupFile_setFile_ne _ _ _ _ h

theorem keyPres_moveG (src dst q : String) (h1 : ¬ (q = dst))
    (h2 : ¬ (q = src)) : KeyPres (moveG src dst) q := by
  intro st
  unfold moveG
  rcases h3 : lookupFile st.fs src with _ | d
  · simp [h3]
  · simp only [h3]
    rw [lookupFile_setFile_ne _ _ _ _ h1, lookupFile_removeFile_ne _ _ _ h2]


theorem keyPres_zipMoveAndCopy (op addonid filename q : String)
    (h1 : ¬ (q = op ++ addonid ++ "/" ++ filename))
    (h2 : ¬ (q = filename))
    (h3 : ¬ (q = op ++ addonid ++ "/" ++ "addon.xml"))
    (h4 : ¬ (q = op ++ addonid ++ "/" ++ "icon.png"))
    (h5 : ¬ (q = op ++ addonid ++ "/" ++ "fanart.jpg")) :
    KeyPres (zipMoveAndCopy op addonid filename) q := by
  unfold zipMoveAndCopy
  refine keyPres_bind (keyPres_moveG _ _ _ h1 h2) (fun _ => ?_)
  refine keyPres_bind (keyPres_copyG _ _ _ h3) (fun _ => ?_)
  refine keyPres_bind (keyPres_tryAll (keyPres_copyG _ _ _ h4)
    (fun _ => keyPres_logLine _ _)) (fun _ => ?_)
  exact keyPres_tryAll (keyPres_copyG _ _ _ h5) (fun _ => keyPres_logLine _ _)

/-- The guarded directory creation succeeds and only touches dirs. -/
theorem ensureDir_shape (p : String) (st : St) :
    ∃ ds lg, ensureDir p st = (Res.ok (), ⟨{ st.fs with dirs := ds }, lg⟩) := by
  unfold ensureDir
  by_cases h : existsF st.fs p = true
  · exact ⟨st.fs.dirs, st.log, by simp [h]⟩
  · refine ⟨p :: st.fs.dirs, st.log ++ [Event.mkdirs p], ?_⟩
    simp only [bind_apply, existsG_apply]
    simp [h]

/-- When the final archive name already exists, the backup step renames it
to the timestamped name, preserving its contents. -/
theorem backupExisting_hit (dst ts : String) (st : St) (d : FData)
    (hd : lookupFile st.fs dst = some d) :
    backupExisting dst ts st = (Res.ok (),
      ⟨setFile (removeFile st.fs dst) (dst ++ "." ++ ts) d,
        st.log ++ [Event.rename dst (dst ++ "." ++ ts)]⟩) := by
  unfold backupExisting
  have hf : isfileF st.fs dst = true := by simp [isfileF, hd]
  simp [hf, renameG, hd]

/-- Through the whole archive-and-place step, contents already stored under
the final archive name end up intact under the timestamped name. -/
theorem zipInner_preserved (env : Env) (op : String) (excl : List String)
    (path addonid filename : String) (st : St) (d : FData)
    (hd : lookupFile st.fs (op ++ addonid ++ "/" ++ filename) = some d)
    (hn1 : ¬ (op ++ addonid ++ "/" ++ filename ++ "." ++ strftimeYmdHMS env.now
        = op ++ addonid ++ "/" ++ filename))
    (hn2 : ¬ (op ++ addonid ++ "/" ++ filename ++ "." ++ strftimeYmdHMS env.now
        = filename))
    (hn3 : ¬ (op ++ addonid ++ "/" ++ filename ++ "." ++ strftimeYmdHMS env.now
        = op ++ addonid ++ "/" ++ "addon.xml"))
    (hn4 : ¬ (op ++ addonid ++ "/" ++ filename ++ "." ++ strftimeYmdHMS env.now
        = op ++ addonid ++ "/" ++ "icon.png"))
    (hn5 : ¬ (op ++ addonid ++ "/" ++ filename ++ "." ++ strftimeYmdHMS env.now
        = op ++ addonid ++ "/" ++ "fanart.jpg"))
    (hn6 : ¬ (op ++ addonid ++ "/" ++ filename = filename)) :
    lookupFile ((zipInner env op excl path addonid filename st).2).fs
        (op ++ addonid ++ "/" ++ filename ++ "." ++ strftimeYmdHMS env.now) =
      some d := by
  unfold zipInner
  rw [bind_apply, createZipG_apply]
  simp only []
  rw [bind_apply]
  obtain ⟨ds, lg, hed⟩ := ensureDir_shape (op ++ addonid)
    ⟨setFile st.fs filename (FData.zipA (zipWalkEntries st.fs path excl)),
      st.log ++ [Event.createZip filename]⟩
  rw [hed]
  simp only []
  rw [bind_apply]
  have hd2 : lookupFile
      ({ setFile st.fs filename (FData.zipA (zipWalkEntries st.fs path excl))
          with dirs := ds }) (op ++ addonid ++ "/" ++ filename) = some d := by
    have : lookupFile
        (setFile st.fs filename (FData.zipA (zipWalkEntries st.fs path excl)))
        (op ++ addonid ++ "/" ++ filename) = some d := by
      rw [lookupFile_setFile_ne _ _ _ _ hn6]
      exact hd
    simpa [lookupFile] using this
  rw [backupExisting_hit _ _ _ _ hd2]
  simp only []
  exact (keyPres_zipMoveAndCopy op addonid filename _ hn1 hn2 hn3 hn4 hn5 _).trans
    (by rw [lookupFile_setFile_same])



theorem ne_of_length_ne (a b : String) (h : ¬ (a.length = b.length)) :
    ¬ (a = b) := fun he => h (by rw [he])

theorem strftime_slength (t : DateTime) : (strftimeYmdHMS t).length = 14 :=
  strftime_length t

/-- The per-package archive step always returns normally. -/
theorem generateZipFile_ok (env : Env) (op : String) (excl : List String)
    (path version addonid : String) (st : St) :
    (generateZipFile env op excl path version addonid st).1 = Res.ok () := by
  unfold generateZipFile
  rw [bind_apply, logLine_apply]
  simp only []
  rw [tryAll_apply]
  rcases hz : zipInner env op excl path addonid (path ++ "-" ++ version ++ ".zip")
      ⟨st.fs, st.log ++ [Event.logMsg ("Generate zip file for " ++ addonid ++ " " ++ version)]⟩
    with ⟨r, st2⟩
  cases r with
  | ok a => cases a; rfl
  | exc e => rfl

/-- Claim C5: when the final archive name already exists in the per-id
output subdirectory, the per-package archive step renames it by appending
the fixed-width numeric year-month-day-hour-minute-second timestamp and
never deletes or overwrites its content: after the step the prior archive
data sits intact under the timestamped name, the step returns normally,
and the suffix is sort-ordered — chronologically later timestamps render
to lexicographically greater fourteen-character strings.  Applied to the
state a first archiver run leaves behind, this is exactly the rerun
scenario: the first archive is preserved under the renamed filename. -/
theorem claim_C5_existing_archive_renamed (env : Env) (op : String)
    (excl : List String) (path version addonid : String) (st : St) (d : FData)
    (hd : lookupFile st.fs
      (op ++ addonid ++ "/" ++ (path ++ "-" ++ version ++ ".zip")) = some d) :
    (generateZipFile env op excl path version addonid st).1 = Res.ok () ∧
    lookupFile (generateZipFile env op excl path version addonid st).2.fs
      (op ++ addonid ++ "/" ++ (path ++ "-" ++ version ++ ".zip") ++ "." ++
        strftimeYmdHMS env.now) = some d ∧
    (∀ t1 t2 : DateTime, dtValid t1 → dtValid t2 → dtLt t1 t2 →
      List.Lex (· < ·) (strftimeYmdHMS t1).data (strftimeYmdHMS t2).data) ∧
    (∀ t : DateTime, (strftimeYmdHMS t).data.length = 14) := by
  refine ⟨generateZipFile_ok env op excl path version addonid st, ?_,
    strftime_mono, strftime_length⟩
  have l1 : ("/" : String).length = 1 := rfl
  have l2 : ("." : String).length = 1 := rfl
  have l3 : ("addon.xml" : String).length = 9 := rfl
  have l4 : (".zip" : String).length = 4 := rfl
  have l5 : ("-" : String).length = 1 := rfl
  have l6 : ("icon.png" : String).length = 8 := rfl
  have l7 : ("fanart.jpg" : String).length = 10 := rfl
  have hts : (strftimeYmdHMS env.now).length = 14 := strftime_slength _
  have hn1 : ¬ (op ++ addonid ++ "/" ++ (path ++ "-" ++ version ++ ".zip") ++ "." ++
      strftimeYmdHMS env.now = op ++ addonid ++ "/" ++ (path ++ "-" ++ version ++ ".zip")) := by
    apply ne_of_length_ne
    simp only [String.length_append, hts, l1, l2, l4, l5]
    omega
  have hn2 : ¬ (op ++ addonid ++ "/" ++ (path ++ "-" ++ version ++ ".zip") ++ "." ++
      strftimeYmdHMS env.now = path ++ "-" ++ version ++ ".zip") := by
    apply ne_of_length_ne
    simp only [String.length_append, hts, l1, l2, l4, l5]
    omega
  have hn3 : ¬ (op ++ addonid ++ "/" ++ (path ++ "-" ++ version ++ ".zip") ++ "." ++
      strftimeYmdHMS env.now = op ++ addonid ++ "/" ++ "addon.xml") := by
    apply ne_of_length_ne
    simp only [String.length_append, hts, l1, l2, l3, l4, l5]
    omega
  have hn4 : ¬ (op ++ addonid ++ "/" ++ (path ++ "-" ++ version ++ ".zip") ++ "." ++
      strftimeYmdHMS env.now = op ++ addonid ++ "/" ++ "icon.png") := by
    apply ne_of_length_ne
    simp only [String.length_append, hts, l1, l2, l4, l5, l6]
    omega
  have hn5 : ¬ (op ++ addonid ++ "/" ++ (path ++ "-" ++ version ++ ".zip") ++ "." ++
      strftimeYmdHMS env.now = op ++ addonid ++ "/" ++ "fanart.jpg") := by
    apply ne_of_length_ne
    simp only [String.length_append, hts, l1, l2, l4, l5, l7]
    omega
  have hn6 : ¬ (op ++ addonid ++ "/" ++ (path ++ "-" ++ version ++ ".zip")
      = path ++ "-" ++ version ++ ".zip") := by
    apply ne_of_length_ne
    simp only [String.length_append, l1, l4, l5]
    omega
  unfold generateZipFile
  rw [bind_apply, logLine_apply]
  simp only []
  rw [tryAll_apply]
  have hd1 : lookupFile
      (⟨st.fs, st.log ++ [Event.logMsg ("Generate zip file for " ++ addonid ++ " " ++ version)]⟩ : St).fs
      (op ++ addonid ++ "/" ++ (path ++ "-" ++ version ++ ".zip")) = some d := hd
  have hkey := zipInner_preserved env op excl path addonid
    (path ++ "-" ++ version ++ ".zip")
    ⟨st.fs, st.log ++ [Event.logMsg ("Generate zip file for " ++ addonid ++ " " ++ version)]⟩
    d hd1 hn1 hn2 hn3 hn4 hn5 hn6
  rcases hz : zipInner env op excl path addonid (path ++ "-" ++ version ++ ".zip")
      ⟨st.fs, st.log ++ [Event.logMsg ("Generate zip file for " ++ addonid ++ " " ++ version)]⟩
    with ⟨r, st2⟩
  rw [hz] at hkey
  cases r with
  | ok a => exact hkey
  | exc e => exact hkey

/-- Witness for C5: a concrete rerun over a tree whose output already
holds an archive of the same name preserves the old entries under the
timestamped name, and a one-second-later clock renders a greater suffix. -/
theorem claim_C5_witness :
    lookupFile (generateZipFile envC "_zip/" [".pyc"] "A" "1.0" "A"
        ⟨⟨["A"], [("_zip/A/A-1.0.zip", FData.zipA [("A/f.txt", "old")]),
            ("A/f.txt", FData.text "new"), ("A/addon.xml", FData.text "MA"),
            ("A/icon.png", FData.text "i"), ("A/fanart.jpg", FData.text "f")],
          ["A", "_zip/", "_zip/A"], [], [], []⟩, []⟩).2.fs
      ("_zip/" ++ "A" ++ "/" ++ ("A" ++ "-" ++ "1.0" ++ ".zip") ++ "." ++
        strftimeYmdHMS envC.now) = some (FData.zipA [("A/f.txt", "old")]) ∧
    List.Lex (· < ·) (strftimeYmdHMS ⟨2024, 5, 6, 7, 8, 9⟩).data
      (strftimeYmdHMS ⟨2024, 5, 6, 7, 8, 10⟩).data :=
  ⟨(claim_C5_existing_archive_renamed envC "_zip/" [".pyc"] "A" "1.0" "A"
      ⟨⟨["A"], [("_zip/A/A-1.0.zip", FData.zipA [("A/f.txt", "old")]),
          ("A/f.txt", FData.text "new"), ("A/addon.xml", FData.text "MA"),
          ("A/icon.png", FData.text "i"), ("A/fanart.jpg", FData.text "f")],
        ["A", "_zip/", "_zip/A"], [], [], []⟩, []⟩
      (FData.zipA [("A/f.txt", "old")]) (by decide)).2.1,
   (claim_C5_existing_archive_renamed envC "_zip/" [".pyc"] "A" "1.0" "A"
      ⟨⟨["A"], [("_zip/A/A-1.0.zip", FData.zipA [("A/f.txt", "old")]),
          ("A/f.txt", FData.text "new"), ("A/addon.xml", FData.text "MA"),
          ("A/icon.png", FData.text "i"), ("A/fanart.jpg", FData.text "f")],
        ["A", "_zip/", "_zip/A"], [], [], []⟩, []⟩
      (FData.zipA [("A/f.txt", "old")]) (by decide)).2.2.1
     ⟨2024, 5, 6, 7, 8, 9⟩ ⟨2024, 5, 6, 7, 8, 10⟩ (by decide) (by decide)
     (by decide)⟩

theorem blobCat_eq (cs : List String) (h : cs ≠ []) :
    blobCat cs = interBlank cs ++ "\n\n" := by
  induction cs with
  | nil => cases h rfl
  | cons c rest ih =>
      cases rest with
      | nil => simp [blobCat, interBlank]
      | cons c2 r2 =>
          show c ++ "\n\n" ++ blobCat (c2 :: r2) =
            (c ++ "\n\n" ++ interBlank (c2 :: r2)) ++ "\n\n"
          rw [ih (by simp)]
          simp [String.append_assoc]

theorem dropWhile_allws_append (W t : List Char)
    (hW : ∀ c ∈ W, isPySpace c = true) :
    (W ++ t).dropWhile isPySpace = t.dropWhile isPySpace := by
  induction W with
  | nil => rfl
  | cons c rest ih =>
      rw [List.cons_append, List.dropWhile_cons, if_pos (hW c (by simp))]
      exact ih (fun x hx => hW x (by simp [hx]))

theorem dropTrailWS_append_allws (X W : List Char)
    (hW : ∀ c ∈ W, isPySpace c = true)
    (X0 : List Char) (x : Char) (hX : X = X0 ++ [x]) (hx : isPySpace x = false) :
    dropTrailWS (X ++ W) = X := by
  unfold dropTrailWS
  rw [List.reverse_append, dropWhile_allws_append _ _ (fun c hc =>
    hW c (List.mem_reverse.mp hc))]
  rw [hX, List.reverse_append]
  show (List.dropWhile isPySpace (x :: X0.reverse)).reverse = X0 ++ [x]
  rw [List.dropWhile_cons, if_neg (by simp [hx])]
  simp

theorem interBlank_ends (cs0 : List String) (cN : String) :
    ∃ pre, (interBlank (cs0 ++ [cN])).data = pre ++ cN.data := by
  induction cs0 with
  | nil => exact ⟨[], rfl⟩
  | cons c rest ih =>
      obtain ⟨pre, hpre⟩ := ih
      cases rest with
      | nil =>
          refine ⟨(c ++ "\n\n").data, ?_⟩
          show ((c ++ "\n\n") ++ interBlank ([] ++ [cN])).data = _
          rw [String.data_append]
          simp [interBlank] at hpre ⊢
      | cons c2 r2 =>
          refine ⟨(c ++ "\n\n").data ++ pre, ?_⟩
          show ((c ++ "\n\n") ++ interBlank ((c2 :: r2) ++ [cN])).data = _
          rw [String.data_append, hpre, List.append_assoc]

theorem pyStrip_aggregate (cs : List String) (cs0 : List String) (cN : String)
    (hcs : cs = cs0 ++ [cN]) (x : Char) (hlast : cN.data.getLast? = some x)
    (hx : isPySpace x = false) :
    pyStrip (xmlHeader ++ blobCat cs) = xmlHeader ++ interBlank cs := by
  have hne : cs ≠ [] := by simp [hcs]
  rw [blobCat_eq cs hne]
  obtain ⟨cd, hcd⟩ := List.getLast?_eq_some_iff.mp hlast
  obtain ⟨pre, hpre⟩ := hcs ▸ interBlank_ends cs0 cN
  apply String.ext
  show ((dropTrailWS (xmlHeader ++ (interBlank cs ++ "\n\n")).data).dropWhile
    isPySpace) = (xmlHeader ++ interBlank cs).data
  have hdata : (xmlHeader ++ (interBlank cs ++ "\n\n")).data =
      (xmlHeader.data ++ (interBlank cs).data) ++ "\n\n".data := by
    rw [String.data_append, String.data_append, List.append_assoc]
  rw [hdata]
  rw [dropTrailWS_append_allws _ _ (by decide)
    (xmlHeader.data ++ pre ++ cd) x
    (by rw [hpre, hcd]; simp [List.append_assoc]) hx]
  rw [← String.data_append]
  show List.dropWhile isPySpace ((xmlHeader ++ interBlank cs).data) = _
  have hh : (xmlHeader ++ interBlank cs).data =
      '<' :: ("?xml version=\"1.0\" encoding=\"UTF-8\"?>\n<addons>\n" ++
        interBlank cs).data := by
    rw [String.data_append, String.data_append]
    rfl
  rw [hh, List.dropWhile_cons, if_neg (by simp [isPySpace])]


set_option maxHeartbeats 1000000 in
theorem addonsLoop_spec (l : List String) (acc : String) (st : St) :
    ∃ Δ, addonsLoop l acc st =
      (Res.ok (acc ++ blobCat (collectManifests st.fs l)), ⟨st.fs, st.log ++ Δ⟩) ∧
    ∀ a ∈ l, isfileF st.fs (a ++ "/" ++ "addon.xml") = true →
      readsOk st.fs (a ++ "/" ++ "addon.xml") = false →
      Event.logMsg (excludingMsg (a ++ "/" ++ "addon.xml") a) ∈ Δ := by
  induction l generalizing acc st with
  | nil =>
      refine ⟨[], ?_, by simp⟩
      simp [addonsLoop, collectManifests, blobCat]
  | cons a rest ih =>
      by_cases hf : isfileF st.fs (a ++ "/" ++ "addon.xml") = true
      · by_cases hu : (a ++ "/" ++ "addon.xml") ∈ st.fs.unreadable
        · -- open fails: logged, excluded
          obtain ⟨Δ, hrec, hmem⟩ := ih acc
            ⟨st.fs, st.log ++ [Event.logMsg (excludingMsg (a ++ "/" ++ "addon.xml") a),
              Event.logMsg "Exception Details:", Event.logMsg kodiExcMsg]⟩
          dsimp only at hrec
          refine ⟨[Event.logMsg (excludingMsg (a ++ "/" ++ "addon.xml") a),
              Event.logMsg "Exception Details:", Event.logMsg kodiExcMsg] ++ Δ, ?_, ?_⟩
          · rw [addonsLoop]
            simp only [bind_apply, isfileG_apply, hf, if_true, tryAll_apply,
              readText, logLine_apply, emit_apply, pure_apply]
            rw [if_pos (by simpa using hu)]
            simp only [bind_apply, logLine_apply, emit_apply, pure_apply,
              List.append_assoc, List.singleton_append, List.cons_append,
              List.nil_append]
            rw [hrec]
            have hcoll : collectManifests st.fs (a :: rest) =
                collectManifests st.fs rest := by
              unfold collectManifests
              rw [List.filterMap_cons]
              rw [if_neg (fun hc => hc.2 (by simpa using hu))]
            rw [hcoll]
            simp [List.append_assoc]
          · intro b hb hbf hbr
            cases hb with
            | head => simp
            | tail _ hb =>
                simp only [List.mem_append, List.mem_cons]
                right
                exact hmem _ hb hbf hbr
        · rcases hl : lookupFile st.fs (a ++ "/" ++ "addon.xml") with _ | d
          · simp [isfileF, hl] at hf
          rcases d with c | z
          · -- successful read
            obtain ⟨Δ, hrec, hmem⟩ := ih (acc ++ c ++ "\n\n") st
            refine ⟨Δ, ?_, ?_⟩
            · rw [addonsLoop]
              simp only [bind_apply, isfileG_apply, hf, if_true, tryAll_apply,
                readText, pure_apply]
              rw [if_neg (by simpa using hu), hl]
              simp only [bind_apply, pure_apply]
              rw [hrec]
              have hcoll : collectManifests st.fs (a :: rest) =
                  c :: collectManifests st.fs rest := by
                unfold collectManifests
                rw [List.filterMap_cons]
                rw [if_pos (by constructor; exact hf; simpa using hu), hl]
              rw [hcoll]
              simp [blobCat, String.append_assoc]
            · intro b hb hbf hbr
              cases hb with
              | head =>
                  rw [readsOk] at hbr
                  rw [hl] at hbr
                  simp [show ¬ ((a ++ "/" ++ "addon.xml") ∈ st.fs.unreadable) from
                    by simpa using hu] at hbr
              | tail _ hb => exact hmem _ hb hbf hbr
          · -- file holds non-text data: read raises
            obtain ⟨Δ, hrec, hmem⟩ := ih acc
              ⟨st.fs, st.log ++ [Event.logMsg (excludingMsg (a ++ "/" ++ "addon.xml") a),
                Event.logMsg "Exception Details:", Event.logMsg kodiExcMsg]⟩
            dsimp only at hrec
            refine ⟨[Event.logMsg (excludingMsg (a ++ "/" ++ "addon.xml") a),
                Event.logMsg "Exception Details:", Event.logMsg kodiExcMsg] ++ Δ, ?_, ?_⟩
            · rw [addonsLoop]
              simp only [bind_apply, isfileG_apply, hf, if_true, tryAll_apply,
                readText, logLine_apply, emit_apply, pure_apply]
              rw [if_neg (by simpa using hu), hl]
              simp only [bind_apply, logLine_apply, emit_apply, pure_apply,
                List.append_assoc, List.singleton_append, List.cons_append,
                List.nil_append]
              rw [hrec]
              have hcoll : collectManifests st.fs (a :: rest) =
                  collectManifests st.fs rest := by
                unfold collectManifests
                rw [List.filterMap_cons]
                rw [if_pos (by constructor; exact hf; simpa using hu), hl]
              rw [hcoll]
              simp [List.append_assoc]
            · intro b hb hbf hbr
              cases hb with
              | head => simp
              | tail _ hb =>
                  simp only [List.mem_append, List.mem_cons]
                  right
                  exact hmem _ hb hbf hbr
      · -- no manifest file: skipped silently
        obtain ⟨Δ, hrec, hmem⟩ := ih acc st
        refine ⟨Δ, ?_, ?_⟩
        · rw [addonsLoop]
          simp only [bind_apply, isfileG_apply]
          rw [if_neg (by simpa using hf)]
          rw [hrec]
          have hcoll : collectManifests st.fs (a :: rest) =
              collectManifests st.fs rest := by
            unfold collectManifests
            rw [List.filterMap_cons]
            rw [if_neg (fun hc => hf hc.1)]
          rw [hcoll]
        · intro b hb hbf hbr
          cases hb with
          | head => exact absurd hbf hf
          | tail _ hb => exact hmem _ hb hbf hbr


/-- Claim C7 (amended): the aggregate document written by the Index
Aggregator is the XML declaration and the single addons root element
wrapping the readable manifests' contents in listing order, separated by a
blank line, except that trailing whitespace of the final manifest's
content is trimmed by the closing strip — so contents are wrapped verbatim
exactly once whenever the final manifest ends in a non-whitespace
character; a manifest that fails to read is excluded from the aggregate
and logged, and the stage returns normally. -/
theorem claim_C7_aggregate_shape (op : String) (st : St) (cs0 : List String)
    (cN : String) (x : Char)
    (hcs : readableManifests st.fs = cs0 ++ [cN])
    (hlast : cN.data.getLast? = some x) (hx : isPySpace x = false)
    (hw1 : st.fs.unwritableOpen.contains (op ++ "addons.xml") = false)
    (hw2 : st.fs.writeFails.contains (op ++ "addons.xml") = false) :
    ∃ Δ : List Event, generateAddonsFile op st = (Res.ok (),
      ⟨setFile st.fs (op ++ "addons.xml") (FData.text
        (xmlHeader ++ interBlank (readableManifests st.fs) ++ "\n</addons>\n")),
       st.log ++ Δ⟩) ∧
    ∀ a ∈ st.fs.listing, isfileF st.fs (a ++ "/" ++ "addon.xml") = true →
      readsOk st.fs (a ++ "/" ++ "addon.xml") = false →
      Event.logMsg (excludingMsg (a ++ "/" ++ "addon.xml") a) ∈ Δ := by
  obtain ⟨Δ, hloop, hmem⟩ := addonsLoop_spec st.fs.listing xmlHeader st
  refine ⟨Δ ++ [Event.openWrite (op ++ "addons.xml"),
    Event.writeData (op ++ "addons.xml"), Event.closeFile (op ++ "addons.xml")],
    ?_, ?_⟩
  · unfold generateAddonsFile
    rw [bind_apply, listdirG_apply]
    simp only []
    rw [bind_apply, hloop]
    simp only []
    unfold saveFile
    dsimp only
    rw [hw1, hw2]
    simp only [Bool.false_eq_true, if_false]
    have hstrip : pyStrip (xmlHeader ++ blobCat (collectManifests st.fs st.fs.listing)) =
        xmlHeader ++ interBlank (readableManifests st.fs) := by
      have : collectManifests st.fs st.fs.listing = readableManifests st.fs := rfl
      rw [this, pyStrip_aggregate (readableManifests st.fs) cs0 cN hcs x hlast hx]
    rw [hstrip]
    simp [List.append_assoc]
  · intro a ha h1 h2
    simp only [List.mem_append]
    exact Or.inl (hmem a ha h1 h2)

/-- Counterexample for C7 as stated: a manifest whose content ends in
blank lines is not wrapped verbatim — its text does not occur as a
substring of the aggregate, because the final strip removed the trailing
newlines. -/
theorem claim_C7_counterexample :
    lookupFile (generateAddonsFile "_zip/" ⟨fsW, []⟩).2.fs "_zip/addons.xml" =
      some (FData.text "<?xml version=\"1.0\" encoding=\"UTF-8\"?>\n<addons>\nx\n</addons>\n") ∧
    containsSub ("x\n\n\n").data
      ("<?xml version=\"1.0\" encoding=\"UTF-8\"?>\n<addons>\nx\n</addons>\n").data = false := by
  decide

/-- Witness for C7: over the concrete two-package tree the aggregate file
holds the header, the two manifests blank-line separated, and the closing
root tag. -/
theorem claim_C7_witness :
    lookupFile (generateAddonsFile "_zip/" ⟨fsC, []⟩).2.fs "_zip/addons.xml" =
      some (FData.text (xmlHeader ++ interBlank (readableManifests fsC) ++
        "\n</addons>\n")) := by
  obtain ⟨Δ, h1, h2⟩ := claim_C7_aggregate_shape "_zip/" ⟨fsC, []⟩ ["MA"] "MR" 'R'
    (by decide) (by decide) (by decide) rfl rfl
  rw [h1]
  exact lookupFile_setFile_same _ _ _

theorem splitLog_of_emits {α : Type} {y : Gen α} {P Q : Event → Prop}
    (h : EmitsOnly y Q) : SplitLog y P Q := by
  intro st
  obtain ⟨Δ, h1, h2⟩ := h st
  exact ⟨[], Δ, by simpa using h1, by simp, h2⟩

theorem splitLog_bind {α β : Type} {x : Gen α} {k : α → Gen β}
    {P Q : Event → Prop} (hx : EmitsOnly x P) (hk : ∀ a, SplitLog (k a) P Q) :
    SplitLog (x >>= k) P Q := by
  intro st
  obtain ⟨Δ1, h1, hp1⟩ := hx st
  rcases hx2 : x st with ⟨r, st2⟩
  cases r with
  | ok a =>
      obtain ⟨A, B, h2, hA, hB⟩ := hk a st2
      refine ⟨Δ1 ++ A, B, ?_, ?_, hB⟩
      · rw [bind_apply, hx2]
        simp only []
        rw [h2]
        rw [hx2] at h1
        simp only [] at h1
        rw [h1]
        simp [List.append_assoc]
      · intro e he
        rcases List.mem_append.mp he with h | h
        · exact hp1 e h
        · exact hA e h
  | exc er =>
      refine ⟨Δ1, [], ?_, hp1, by simp⟩
      rw [bind_apply, hx2]
      rw [hx2] at h1
      simpa using h1

theorem splitLog_tryAll {α : Type} {x : Gen α} {h : Err → Gen α}
    {P Q : Event → Prop} (hx : SplitLog x P Q)
    (hh : ∀ er, EmitsOnly (h er) Q) : SplitLog (tryAll x h) P Q := by
  intro st
  obtain ⟨A, B, h1, hA, hB⟩ := hx st
  rcases hx2 : x st with ⟨r, st2⟩
  cases r with
  | ok a =>
      refine ⟨A, B, ?_, hA, hB⟩
      rw [tryAll_apply, hx2]
      rw [hx2] at h1
      simpa using h1
  | exc er =>
      obtain ⟨Δ2, h2, hq2⟩ := hh er st2
      refine ⟨A, B ++ Δ2, ?_, hA, ?_⟩
      · rw [tryAll_apply, hx2]
        simp only []
        rw [h2]
        rw [hx2] at h1
        simp only [] at h1
        rw [h1]
        simp [List.append_assoc]
      · intro e he
        rcases List.mem_append.mp he with h | h
        · exact hB e h
        · exact hq2 e h

theorem notCopy_cases :
    (∀ p, notCopy (Event.mkdirs p)) ∧ (∀ p, notCopy (Event.createZip p)) ∧
    (∀ s d, notCopy (Event.rename s d)) ∧ (∀ s d, notCopy (Event.move s d)) ∧
    (∀ m, notCopy (Event.logMsg m)) := by
  refine ⟨?_, ?_, ?_, ?_, ?_⟩ <;> (intros; intro s d h; cases h)

theorem notMove_cases :
    (∀ s d, notMove (Event.copy s d)) ∧ (∀ m, notMove (Event.logMsg m)) := by
  refine ⟨?_, ?_⟩ <;> (intros; intro s d h; cases h)

theorem copySrcOf_cases (addonid : String) :
    (∀ p, copySrcOf addonid (Event.mkdirs p)) ∧
    (∀ p, copySrcOf addonid (Event.createZip p)) ∧
    (∀ s d, copySrcOf addonid (Event.rename s d)) ∧
    (∀ s d, copySrcOf addonid (Event.move s d)) ∧
    (∀ m, copySrcOf addonid (Event.logMsg m)) ∧
    (∀ d, copySrcOf addonid (Event.copy (addonid ++ "/addon.xml") d)) ∧
    (∀ d, copySrcOf addonid (Event.copy (addonid ++ "/icon.png") d)) ∧
    (∀ d, copySrcOf addonid (Event.copy (addonid ++ "/fanart.jpg") d)) := by
  refine ⟨?_, ?_, ?_, ?_, ?_, ?_, ?_, ?_⟩
  · intro p s d h; cases h
  · intro p s d h; cases h
  · intro a b s d h; cases h
  · intro a b s d h; cases h
  · intro m s d h; cases h
  · intro a s d h
    injection h with h1 h2
    subst h1
    exact Or.inl rfl
  · intro a s d h
    injection h with h1 h2
    subst h1
    exact Or.inr (Or.inl rfl)
  · intro a s d h
    injection h with h1 h2
    subst h1
    exact Or.inr (Or.inr rfl)

theorem splitLog_zipMoveAndCopy (op addonid filename : String) :
    SplitLog (zipMoveAndCopy op addonid filename) notCopy notMove := by
  unfold zipMoveAndCopy
  refine splitLog_bind (emitsOnly_moveG _ _ (notCopy_cases.2.2.2.1 _ _)) (fun _ => ?_)
  refine splitLog_of_emits ?_
  refine emitsOnly_bind (emitsOnly_copyG _ _ (notMove_cases.1 _ _)) (fun _ => ?_)
  refine emitsOnly_bind (emitsOnly_tryAll (emitsOnly_copyG _ _ (notMove_cases.1 _ _))
    (fun _ => emitsOnly_logLine (notMove_cases.2 _))) (fun _ => ?_)
  exact emitsOnly_tryAll (emitsOnly_copyG _ _ (notMove_cases.1 _ _))
    (fun _ => emitsOnly_logLine (notMove_cases.2 _))

theorem splitLog_generateZipFile (env : Env) (op : String) (excl : List String)
    (path version addonid : String) :
    SplitLog (generateZipFile env op excl path version addonid) notCopy notMove := by
  unfold generateZipFile
  refine splitLog_bind (emitsOnly_logLine (notCopy_cases.2.2.2.2 _)) (fun _ => ?_)
  refine splitLog_tryAll ?_ (fun er => emitsOnly_logLine (notMove_cases.2 _))
  unfold zipInner
  refine splitLog_bind (emitsOnly_createZipG _ _ _ (notCopy_cases.2.1 _)) (fun _ => ?_)
  refine splitLog_bind (emitsOnly_ensureDir _ (notCopy_cases.1 _)) (fun _ => ?_)
  refine splitLog_bind (emitsOnly_backupExisting _ _ (notCopy_cases.2.2.1 _ _)) (fun _ => ?_)
  exact splitLog_zipMoveAndCopy op addonid (path ++ "-" ++ version ++ ".zip")

theorem emitsOnly_generateZipFile_copySrc (env : Env) (op : String)
    (excl : List String) (path version addonid : String) :
    EmitsOnly (generateZipFile env op excl path version addonid)
      (copySrcOf addonid) := by
  unfold generateZipFile
  refine emitsOnly_bind (emitsOnly_logLine ((copySrcOf_cases addonid).2.2.2.2.1 _))
    (fun _ => ?_)
  refine emitsOnly_tryAll ?_
    (fun er => emitsOnly_logLine ((copySrcOf_cases addonid).2.2.2.2.1 _))
  unfold zipInner
  refine emitsOnly_bind (emitsOnly_createZipG _ _ _ ((copySrcOf_cases addonid).2.1 _))
    (fun _ => ?_)
  refine emitsOnly_bind (emitsOnly_ensureDir _ ((copySrcOf_cases addonid).1 _))
    (fun _ => ?_)
  refine emitsOnly_bind (emitsOnly_backupExisting _ _
    ((copySrcOf_cases addonid).2.2.1 _ _)) (fun _ => ?_)
  unfold zipMoveAndCopy
  refine emitsOnly_bind (emitsOnly_moveG _ _ ((copySrcOf_cases addonid).2.2.2.1 _ _))
    (fun _ => ?_)
  refine emitsOnly_bind (emitsOnly_copyG _ _ ((copySrcOf_cases addonid).2.2.2.2.2.1 _))
    (fun _ => ?_)
  refine emitsOnly_bind (emitsOnly_tryAll
    (emitsOnly_copyG _ _ ((copySrcOf_cases addonid).2.2.2.2.2.2.1 _))
    (fun _ => emitsOnly_logLine ((copySrcOf_cases addonid).2.2.2.2.1 _)))
    (fun _ => ?_)
  exact emitsOnly_tryAll
    (emitsOnly_copyG _ _ ((copySrcOf_cases addonid).2.2.2.2.2.2.2 _))
    (fun _ => emitsOnly_logLine ((copySrcOf_cases addonid).2.2.2.2.1 _))

/-- Claim C10: every asset copy the per-package archive step performs
reads from the top-level directory named by the package's declared id —
the manifest, icon, and fan-art sources are the three id-qualified paths —
and all copy events occur only after the archive move event; when the
archived directory's name differs from the declared id, the manifest copy
source differs from the archived directory's manifest path, so the copies
come from a different directory (or fail after the archive has already
been moved into the output tree, as the witness exhibits concretely). -/
theorem claim_C10_copies_from_declared_id (env : Env) (op : String)
    (excl : List String) (path version addonid : String) (st : St) :
    (∃ A B : List Event,
      (generateZipFile env op excl path version addonid st).2.log =
        st.log ++ A ++ B ∧
      (∀ e ∈ A, notCopy e) ∧ (∀ e ∈ B, notMove e) ∧
      (∀ e ∈ A ++ B, copySrcOf addonid e)) ∧
    (¬ (addonid = path) →
      ¬ (addonid ++ "/addon.xml" = path ++ "/addon.xml")) := by
  constructor
  · obtain ⟨A, B, h1, hA, hB⟩ :=
      splitLog_generateZipFile env op excl path version addonid st
    obtain ⟨Δ, h2, hsrc⟩ :=
      emitsOnly_generateZipFile_copySrc env op excl path version addonid st
    refine ⟨A, B, h1, hA, hB, ?_⟩
    have hAB : A ++ B = Δ := by
      have := h1.symm.trans h2
      rw [List.append_assoc] at this
      exact List.append_cancel_left this
    intro e he
    exact hsrc e (hAB ▸ he)
  · intro hne heq
    apply hne
    have hd := congrArg String.data heq
    rw [String.data_append, String.data_append] at hd
    exact String.ext (List.append_cancel_right hd)

/-- Witness for C10: a package directory pkg declaring id B is archived,
the archive is moved into the B output subdirectory, and the manifest copy
from the absent B directory fails after the move with the logged
exception. -/
theorem claim_C10_witness :
    (¬ ("B" ++ "/addon.xml" = "pkg" ++ "/addon.xml")) ∧
    Event.move "pkg-1.0.zip" ("_zip/" ++ "B" ++ "/" ++ "pkg-1.0.zip") ∈
      (generateZipFile envC "_zip/" [".pyc"] "pkg" "1.0" "B" ⟨fsX, []⟩).2.log ∧
    Event.logMsg kodiExcMsg ∈
      (generateZipFile envC "_zip/" [".pyc"] "pkg" "1.0" "B" ⟨fsX, []⟩).2.log ∧
    lookupFile (generateZipFile envC "_zip/" [".pyc"] "pkg" "1.0" "B"
        ⟨fsX, []⟩).2.fs ("_zip/" ++ "B" ++ "/" ++ "pkg-1.0.zip") =
      some (FData.zipA [("pkg/addon.xml", "MB")]) :=
  ⟨(claim_C10_copies_from_declared_id envC "_zip/" [".pyc"] "pkg" "1.0" "B"
      ⟨fsX, []⟩).2 (by decide),
   by decide, by decide, by decide⟩

end RepoGen
